import Mathlib

/-!
Shallow embedding of the InventoryApp repository (src/database.py, src/server.py)
and verification of the frozen claims about it.

Numeric SQL `REAL` values and Python floats are modelled as rationals (ℚ);
Python's `round(x, 2)` is modelled as round-half-to-even at two decimal places.
Database tables are modelled as Lean lists of rows, in rowid (insertion) order;
SQL `UPDATE ... WHERE` is a `List.map` guarded by the WHERE predicate,
`DELETE ... WHERE` is a `List.filter`, and `cursor.rowcount` is the length of
the matching sublist.  `datetime.now().isoformat()` timestamps are threaded as
an explicit `now : String` parameter.
-/

namespace InventoryApp

/-- Floor of a rational, computed directly on the reduced numerator/denominator
so that it evaluates by kernel reduction. -/
def qfloor (q : ℚ) : ℤ := Int.fdiv q.num q.den

/-- Round-half-to-even to the nearest integer: the model of Python `round`. -/
def roundHalfEven (q : ℚ) : ℤ :=
  let f := qfloor q
  let r := q - (f : ℚ)
  if r < 1/2 then f
  else if 1/2 < r then f + 1
  else if f % 2 = 0 then f else f + 1

/-- Model of Python `round(x, 2)`. -/
def round2 (q : ℚ) : ℚ := (roundHalfEven (q * 100) : ℚ) / 100

/-! ### String helpers

Implemented over `String.data` with plain structural recursion so that every
definition evaluates by kernel reduction.  `strLower` maps `Char.toLower`
(ASCII case mapping), matching SQLite's ASCII-only `LOWER`. -/

/-- ASCII lower-casing, the model of SQLite `LOWER` and Python `.lower()`. -/
def strLower (s : String) : String := ⟨s.data.map Char.toLower⟩

/-- Python `str.strip()`: drop leading and trailing whitespace. -/
def strTrim (s : String) : String :=
  ⟨((s.data.dropWhile Char.isWhitespace).reverse.dropWhile Char.isWhitespace).reverse⟩

/-- Python `s.replace(',', ';')` (single-character needle, hence a char map). -/
def commaToSemi (s : String) : String :=
  ⟨s.data.map (fun c => if c = ',' then ';' else c)⟩

/-- Split a char list at every occurrence of `sep` (Python `str.split(sep)`). -/
def splitCh (sep : Char) : List Char → List (List Char)
  | [] => [[]]
  | c :: cs =>
    let r := splitCh sep cs
    if c = sep then [] :: r
    else
      match r with
      | [] => [[c]]
      | h :: t => (c :: h) :: t

/-- Python `s.split(';')`. -/
def splitSemi (s : String) : List String :=
  (splitCh ';' s.data).map (fun l => (⟨l⟩ : String))

/-- Python `'; '.join(l)`. -/
def joinSemiSp : List String → String
  | [] => ""
  | [s] => s
  | s :: rest => s ++ "; " ++ joinSemiSp rest

/-- Python `', '.join(l)`. -/
def joinCommaSp : List String → String
  | [] => ""
  | [s] => s
  | s :: rest => s ++ ", " ++ joinCommaSp rest

/-- Byte-order comparison on char lists; agrees with SQLite BINARY collation
on UTF-8 text because UTF-8 byte order coincides with codepoint order. -/
def charListLe : List Char → List Char → Bool
  | [], _ => true
  | _ :: _, [] => false
  | c :: cs, d :: ds =>
    decide (c < d) || (c = d && charListLe cs ds)

/-- `ORDER BY` comparison on TEXT columns. -/
def strLeB (s t : String) : Bool := charListLe s.data t.data

/-- Insert into a sorted list (stable). -/
def insertLe {α : Type} (le : α → α → Bool) (a : α) : List α → List α
  | [] => [a]
  | b :: bs => if le a b then a :: b :: bs else b :: insertLe le a bs

/-- Stable insertion sort: the model of SQL `ORDER BY`. -/
def sortLe {α : Type} (le : α → α → Bool) : List α → List α
  | [] => []
  | a :: l => insertLe le a (sortLe le l)

/-! ### SQL LIKE

`sync_prices_to_inventory` matches names with
`LOWER(i.item) LIKE '%' || lp || '%' OR lp LIKE '%' || LOWER(i.item) || '%'`.
`likeM` implements SQL LIKE pattern matching (`%` matches any sequence, `_`
any single character), case-sensitively; the source applies it to strings that
are already lower-cased on both sides. -/

/-- Try `f` on every suffix of the string (the semantics of a leading `%`). -/
def likeRest (f : List Char → Bool) : List Char → Bool
  | [] => f []
  | c :: s => f (c :: s) || likeRest f s

/-- SQL LIKE matching: `likeM pattern string`. -/
def likeM : List Char → List Char → Bool
  | [], s => s.isEmpty
  | c :: ps, s =>
    if c = '%' then likeRest (likeM ps) s
    else
      match s with
      | [] => false
      | d :: s' => (if c = '_' then true else decide (c = d)) && likeM ps s'

/-- `s LIKE '%' || p || '%'`. -/
def likeContains (p s : List Char) : Bool := likeM ('%' :: (p ++ ['%'])) s

/-- Literal prefix test on char lists. -/
def startsWithL : List Char → List Char → Bool
  | [], _ => true
  | _ :: _, [] => false
  | c :: ps, d :: ss => decide (c = d) && startsWithL ps ss

/-- Literal substring test on char lists. -/
def containsSub (p s : List Char) : Bool := likeRest (startsWithL p) s

/-! ### Data model (the SQLite schema of database.py) -/

/-- A row of `inventory_items`.  `count1..count4` are the legacy per-item count
columns (only written at insert time); current counts live in
`inventory_counts`. -/
structure InvItem where
  id : String
  supplier : String
  location : String
  item : String
  unit : String
  cost : ℚ
  count1 : ℚ
  count2 : ℚ
  count3 : ℚ
  count4 : ℚ
  is_custom : Bool
  archived : Bool
  created_at : String
  updated_at : String
  deriving DecidableEq, Repr

/-- A row of `price_items`.  `location` is the legacy display-only
comma-joined location string. -/
structure PriceItem where
  id : String
  location : String
  supplier : String
  item : String
  purchase_unit : String
  units_per_inv : ℚ
  current_price : ℚ
  per_unit_cost : ℚ
  archived : Bool
  created_at : String
  updated_at : String
  deriving DecidableEq, Repr

/-- A row of `price_history` (in rowid order; the AUTOINCREMENT id is the
list position). -/
structure HistEntry where
  price_item_id : String
  month : String
  price : ℚ
  deriving DecidableEq, Repr

/-- A row of `inventory_counts`.  `cost` is the historical cost snapshot,
a nullable column (`REAL DEFAULT NULL`). -/
structure CountRow where
  inventory_item_id : String
  store : String
  month : String
  count1 : ℚ
  count2 : ℚ
  count3 : ℚ
  count4 : ℚ
  cost : Option ℚ
  created_at : String
  updated_at : String
  deriving DecidableEq, Repr

/-- The database state.  `locations` is the name-unique `locations` table in
insertion order (the surrogate id is the position); `price_item_locations`
is the junction table, with the location foreign key replaced by the (unique)
location name. Suppliers and stores tables are not needed by any claim. -/
structure DB where
  inventory_items : List InvItem
  price_items : List PriceItem
  price_history : List HistEntry
  inventory_counts : List CountRow
  locations : List String
  price_item_locations : List (String × String)
  deriving DecidableEq, Repr

def emptyDB : DB :=
  { inventory_items := [], price_items := [], price_history := [],
    inventory_counts := [], locations := [], price_item_locations := [] }

/-- Python truthiness of an optional string argument (`if month:`): present
and non-empty. -/
def optTruthy : Option String → Bool
  | none => false
  | some s => decide (s ≠ "")

/-! ### Price item locations (junction table operations) -/

/-- `get_price_item_locations`: the location names of a price item, sorted
(`ORDER BY l.name`). -/
def get_price_item_locations (db : DB) (price_item_id : String) : List String :=
  sortLe strLeB ((db.price_item_locations.filter
    (fun pr => decide (pr.1 = price_item_id))).map (·.2))

/-- One iteration of the loop in `set_price_item_locations`: skip empty names,
get-or-create the location row, then `INSERT OR IGNORE` the junction row. -/
def setLocStep (price_item_id : String) (d : DB) (name : String) : DB :=
  if name = "" then d
  else
    let d1 := if name ∈ d.locations then d
              else { d with locations := d.locations ++ [name] }
    if (price_item_id, name) ∈ d1.price_item_locations then d1
    else { d1 with price_item_locations :=
                     d1.price_item_locations ++ [(price_item_id, name)] }

/-- `set_price_item_locations`: delete the item's junction rows, then re-add
each given name (get-or-create the location, `INSERT OR IGNORE` the pair). -/
def set_price_item_locations (db : DB) (price_item_id : String)
    (location_names : List String) : DB :=
  let db0 := { db with price_item_locations :=
                 (db.price_item_locations.filter
                   (fun pr => decide (pr.1 ≠ price_item_id))) }
  location_names.foldl (setLocStep price_item_id) db0

/-! ### Inventory operations -/

/-- The row produced by `get_inventory_item`'s joined SELECT (month or store
given): item fields with `COALESCE(c.cost, i.cost)` and count columns. -/
structure InvView where
  id : String
  supplier : String
  location : String
  item : String
  unit : String
  cost : ℚ
  current_cost : ℚ
  is_custom : Bool
  count1 : ℚ
  count2 : ℚ
  count3 : ℚ
  count4 : ℚ
  deriving DecidableEq, Repr

/-- The LEFT JOIN condition of `get_inventory_item`: the first `inventory_counts`
row for the item satisfying the month/store filters. -/
def joinedCount (db : DB) (item_id : String) (month store : Option String) :
    Option CountRow :=
  db.inventory_counts.find? (fun c =>
    decide (c.inventory_item_id = item_id) &&
    (match month with | none => true | some m => decide (c.month = m)) &&
    (match store with | none => true | some s => decide (c.store = s)))

/-- `get_inventory_item`: with a month or store filter the joined view, else
the raw item row (whose legacy count columns serve as counts). -/
def get_inventory_item (db : DB) (item_id : String)
    (month store : Option String) : Option InvView :=
  match db.inventory_items.find? (fun it => decide (it.id = item_id)) with
  | none => none
  | some it =>
    if month.isSome || store.isSome then
      let c := joinedCount db item_id month store
      some { id := it.id, supplier := it.supplier, location := it.location,
             item := it.item, unit := it.unit,
             cost := ((c.bind (·.cost)).getD it.cost),
             current_cost := it.cost, is_custom := it.is_custom,
             count1 := (c.map (·.count1)).getD 0,
             count2 := (c.map (·.count2)).getD 0,
             count3 := (c.map (·.count3)).getD 0,
             count4 := (c.map (·.count4)).getD 0 }
    else
      some { id := it.id, supplier := it.supplier, location := it.location,
             item := it.item, unit := it.unit, cost := it.cost,
             current_cost := it.cost, is_custom := it.is_custom,
             count1 := it.count1, count2 := it.count2,
             count3 := it.count3, count4 := it.count4 }

/-- The JSON body of an inventory update request, with every field the handler
reads via `data.get(...)` resolved to its value-or-default. -/
structure InvData where
  supplier : String
  location : String
  item : String
  unit : String
  cost : ℚ
  count1 : ℚ
  count2 : ℚ
  count3 : ℚ
  count4 : ℚ
  deriving DecidableEq, Repr

/-- The `(inventory_item_id, store, month)` conflict target of the count
upsert. -/
def countKey (item_id store_name month : String) (r : CountRow) : Bool :=
  decide (r.inventory_item_id = item_id) && decide (r.store = store_name) &&
  decide (r.month = month)

/-- The DO UPDATE arm of the upsert: counts overwritten,
`cost = COALESCE(inventory_counts.cost, excluded.cost)`. -/
def upCount (data : InvData) (now : String) (r : CountRow) : CountRow :=
  { r with count1 := data.count1, count2 := data.count2,
           count3 := data.count3, count4 := data.count4,
           cost := some (r.cost.getD data.cost), updated_at := now }

/-- The freshly inserted count row of the upsert. -/
def newCount (item_id store_name month : String) (data : InvData)
    (now : String) : CountRow :=
  { inventory_item_id := item_id, store := store_name, month := month,
    count1 := data.count1, count2 := data.count2, count3 := data.count3,
    count4 := data.count4, cost := some data.cost,
    created_at := now, updated_at := now }

/-- The count-row upsert inside `update_inventory_item`:
`INSERT ... ON CONFLICT(inventory_item_id, store, month) DO UPDATE SET`. -/
def upsertCount (counts : List CountRow) (item_id store_name month : String)
    (data : InvData) (now : String) : List CountRow :=
  if counts.any (countKey item_id store_name month) then
    counts.map (fun r =>
      if countKey item_id store_name month r then upCount data now r else r)
  else
    counts ++ [newCount item_id store_name month data now]

/-- `update_inventory_item`: unconditionally overwrite the base item's
descriptive fields, then (if a month is given) upsert the count row for
`(item, store or '', month)`; returns `get_inventory_item`. -/
def update_inventory_item (db : DB) (item_id : String) (data : InvData)
    (month store : Option String) (now : String) : DB × Option InvView :=
  let items := db.inventory_items.map (fun it =>
    if it.id = item_id then
      { it with supplier := data.supplier, location := data.location,
                item := data.item, unit := data.unit, cost := data.cost,
                updated_at := now }
    else it)
  let db1 := { db with inventory_items := items }
  let db2 :=
    match month with
    | some m =>
      if m ≠ "" then
        { db1 with inventory_counts :=
            upsertCount db1.inventory_counts item_id (store.getD "") m data now }
      else db1
    | none => db1
  (db2, get_inventory_item db2 item_id month store)

/-- `add_inventory_item`: insert a custom item with zero counts.  The
time-based generated id is passed explicitly as `new_id`. -/
def add_inventory_item (db : DB) (new_id : String) (data : InvData)
    (now : String) : DB :=
  { db with inventory_items := db.inventory_items ++
      [{ id := new_id, supplier := data.supplier, location := data.location,
         item := data.item, unit := data.unit, cost := data.cost,
         count1 := 0, count2 := 0, count3 := 0, count4 := 0,
         is_custom := true, archived := false,
         created_at := now, updated_at := now }] }

/-- `delete_inventory_item`: `DELETE ... WHERE id = ? AND is_custom = 1`;
returns whether a row was deleted. -/
def delete_inventory_item (db : DB) (item_id : String) : DB × Bool :=
  ({ db with inventory_items := (db.inventory_items.filter
       (fun it => !(decide (it.id = item_id) && it.is_custom))) },
   db.inventory_items.any (fun it => decide (it.id = item_id) && it.is_custom))

/-- `clear_all_counts`: delete count rows matching the truthy filters; with no
truthy filter no DELETE is issued. -/
def clear_all_counts (db : DB) (month store : Option String) : DB :=
  let mt := optTruthy month
  let st := optTruthy store
  let cond := fun (r : CountRow) =>
    (if mt then decide (r.month = month.getD "") else true) &&
    (if st then decide (r.store = store.getD "") else true)
  if mt || st then
    { db with inventory_counts := db.inventory_counts.filter (fun r => !cond r) }
  else db

/-! ### Price operations -/

/-- The JSON body of a price item create/update, fields resolved as the code's
`data.get(...)` calls do (`month` only read by `add_price_item`). -/
structure PriceData where
  locations : List String
  location : String
  supplier : String
  item : String
  purchase_unit : String
  units_per_inv : ℚ
  current_price : ℚ
  month : Option String
  deriving DecidableEq, Repr

/-- `data.get('units_per_inv', 1) or 1`: a zero (falsy) conversion factor
falls back to 1. -/
def unitsOr1 (q : ℚ) : ℚ := if q = 0 then 1 else q

/-- `locations = data.get('locations', [])`, falling back to the single
`location` field when the list is empty and `location` is truthy. -/
def resolvedLocations (data : PriceData) : List String :=
  if data.locations ≠ [] then data.locations
  else if data.location ≠ "" then [data.location] else []

/-- Update the first `price_history` row matching `(price_item_id, month)`
in place (the `SELECT id ... fetchone` / `UPDATE ... WHERE id` pair). -/
def updateFirstHist (item_id month : String) (price : ℚ) :
    List HistEntry → List HistEntry
  | [] => []
  | e :: es =>
    if e.price_item_id = item_id ∧ e.month = month then
      { e with price := price } :: es
    else e :: updateFirstHist item_id month price es

/-- `update_price` (the `setPrice` operation): recompute `per_unit_cost` from
the stored conversion factor (`row['units_per_inv'] or 1`), overwrite the
item's price columns, and update-or-insert the history entry for the month.
Returns whether the item was found. -/
def update_price (db : DB) (item_id month : String) (price : ℚ)
    (now : String) : DB × Bool :=
  match db.price_items.find? (fun pi => decide (pi.id = item_id)) with
  | none => (db, false)
  | some pi =>
    let per_unit_cost := round2 (price / unitsOr1 pi.units_per_inv)
    let items := db.price_items.map (fun p =>
      if p.id = item_id then
        { p with current_price := price, per_unit_cost := per_unit_cost,
                 updated_at := now }
      else p)
    let hist :=
      if db.price_history.any (fun e =>
           decide (e.price_item_id = item_id) && decide (e.month = month)) then
        updateFirstHist item_id month price db.price_history
      else
        db.price_history ++ [{ price_item_id := item_id, month := month,
                               price := price }]
    ({ db with price_items := items, price_history := hist }, true)

/-- The price item row inserted by `add_price_item`. -/
def newPriceRow (new_id : String) (data : PriceData) (now : String) :
    PriceItem :=
  { id := new_id,
    location := if resolvedLocations data ≠ [] then
                  joinCommaSp (resolvedLocations data) else "",
    supplier := data.supplier, item := data.item,
    purchase_unit := data.purchase_unit,
    units_per_inv := unitsOr1 data.units_per_inv,
    current_price := data.current_price,
    per_unit_cost := round2 (data.current_price / unitsOr1 data.units_per_inv),
    archived := false, created_at := now, updated_at := now }

/-- The overwrite `update_price_item` applies to the matching row. -/
def overwritePriceRow (data : PriceData) (now : String) (pi : PriceItem) :
    PriceItem :=
  { pi with
    location := if resolvedLocations data ≠ [] then
                  joinCommaSp (resolvedLocations data) else "",
    supplier := data.supplier, item := data.item,
    purchase_unit := data.purchase_unit,
    units_per_inv := unitsOr1 data.units_per_inv,
    current_price := data.current_price,
    per_unit_cost := round2 (data.current_price / unitsOr1 data.units_per_inv),
    updated_at := now }

/-- `add_price_item`:  derive `per_unit_cost`, insert the item (the legacy
`location` column is the comma-joined location list), seed one history entry
when an initial price and truthy month are supplied, and write the junction
rows.  The time-based generated id is passed explicitly as `new_id`. -/
def add_price_item (db : DB) (new_id : String) (data : PriceData)
    (now : String) : DB :=
  let current_price := data.current_price
  let locations := resolvedLocations data
  let db1 := { db with price_items := db.price_items ++
                 [newPriceRow new_id data now] }
  let db2 :=
    if 0 < current_price then
      match data.month with
      | some m =>
        if m ≠ "" then
          { db1 with price_history := db1.price_history ++
              [{ price_item_id := new_id, month := m, price := current_price }] }
        else db1
      | none => db1
    else db1
  if locations ≠ [] then set_price_item_locations db2 new_id locations else db2

/-- `update_price_item`: full overwrite of the item's descriptive fields and
derived per-unit cost; when a row was updated, replace the entire location
association set.  Returns whether the item was found (`rowcount > 0`). -/
def update_price_item (db : DB) (item_id : String) (data : PriceData)
    (now : String) : DB × Bool :=
  let locations := resolvedLocations data
  let items := db.price_items.map (fun pi =>
    if pi.id = item_id then overwritePriceRow data now pi else pi)
  let updated := db.price_items.any (fun pi => decide (pi.id = item_id))
  let db1 := { db with price_items := items }
  if updated then (set_price_item_locations db1 item_id locations, true)
  else (db1, false)

/-- `delete_price_item`: remove the junction rows, then the item row. -/
def delete_price_item (db : DB) (item_id : String) : DB × Bool :=
  ({ db with
     price_item_locations := db.price_item_locations.filter
       (fun pr => decide (pr.1 ≠ item_id)),
     price_items := db.price_items.filter (fun pi => decide (pi.id ≠ item_id)) },
   db.price_items.any (fun pi => decide (pi.id = item_id)))

/-- `archive_price_item`: set the archived flag on the price item and on every
inventory item whose name matches case-insensitively; returns the number of
inventory rows the UPDATE touched, or `none` when the price item is missing. -/
def archive_price_item (db : DB) (item_id : String) (archive : Bool)
    (now : String) : DB × Option ℕ :=
  match db.price_items.find? (fun pi => decide (pi.id = item_id)) with
  | none => (db, none)
  | some pi =>
    let items := db.price_items.map (fun p =>
      if p.id = item_id then { p with archived := archive, updated_at := now }
      else p)
    let nameMatch := fun (it : InvItem) => strLower it.item = strLower pi.item
    let invs := db.inventory_items.map (fun it =>
      if nameMatch it then { it with archived := archive, updated_at := now }
      else it)
    ({ db with price_items := items, inventory_items := invs },
     some (db.inventory_items.filter (fun it => decide (nameMatch it))).length)

/-! ### Reconciliation (sync_prices_to_inventory) -/

/-- The outer SELECT row of `sync_prices_to_inventory`: a price item with its
first-alphabetical associated location (the correlated subquery). -/
structure PricePick where
  id : String
  item : String
  supplier : String
  per_unit_cost : ℚ
  location : Option String
  deriving DecidableEq, Repr

/-- The correlated subquery: first location name of the item, `ORDER BY
l.name LIMIT 1`, NULL when there is none. -/
def firstLocation (db : DB) (price_item_id : String) : Option String :=
  (get_price_item_locations db price_item_id).head?

/-- Whether the inventory item needs updating: the cost differs by more than
0.001, or the supplier or location differ (`price_item['location'] or ''`). -/
def syncNeedsUpdate (pick : PricePick) (it : InvItem) : Bool :=
  decide ((1 : ℚ)/1000 < |it.cost - pick.per_unit_cost|) ||
  decide (it.supplier ≠ pick.supplier) ||
  decide (it.location ≠ pick.location.getD "")

/-- Process one price item against the inventory table, with a parameterised
name-match predicate: overwrite cost/supplier/location on each matching,
differing item and count the rows updated. -/
def syncStepWith (nameMatch : String → String → Bool) (now : String)
    (pick : PricePick) (invs : List InvItem) : List InvItem × ℕ :=
  let upd := fun (it : InvItem) =>
    nameMatch pick.item it.item && syncNeedsUpdate pick it
  (invs.map (fun it =>
     if upd it then
       { it with cost := pick.per_unit_cost, supplier := pick.supplier,
                 location := pick.location.getD "", updated_at := now }
     else it),
   (invs.filter upd).length)

/-- `sync_prices_to_inventory` with the name-match predicate as a parameter:
materialise the outer SELECT, then fold over the price items, each seeing the
updates of the previous ones. -/
def syncWith (nameMatch : String → String → Bool) (db : DB) (now : String) :
    DB × ℕ :=
  let picks := db.price_items.map (fun pi =>
    { id := pi.id, item := pi.item, supplier := pi.supplier,
      per_unit_cost := pi.per_unit_cost, location := firstLocation db pi.id
      : PricePick })
  let res := picks.foldl (fun (acc : List InvItem × ℕ) pick =>
      let r := syncStepWith nameMatch now pick acc.1
      (r.1, acc.2 + r.2))
    (db.inventory_items, 0)
  ({ db with inventory_items := res.1 }, res.2)

/-- The source's name match:
`LOWER(i.item) LIKE '%' || lp || '%' OR lp LIKE '%' || LOWER(i.item) || '%'`
with `lp` the Python-lowercased price item name. -/
def likeNameMatch (priceName invName : String) : Bool :=
  likeContains (strLower priceName).data (strLower invName).data ||
  likeContains (strLower invName).data (strLower priceName).data

/-- `sync_prices_to_inventory` as implemented (SQL LIKE matching). -/
def sync_prices_to_inventory (db : DB) (now : String) : DB × ℕ :=
  syncWith likeNameMatch db now

/-- The claim's name match, following the spec's words: case-insensitive
substring containment in either direction. -/
def subNameMatch (priceName invName : String) : Bool :=
  containsSub (strLower priceName).data (strLower invName).data ||
  containsSub (strLower invName).data (strLower priceName).data

/-- Modelled from the spec: the reconciliation pass as the claim describes it,
identical to the source except that names are matched by literal
case-insensitive substring containment instead of SQL LIKE. -/
def syncSpecModel (db : DB) (now : String) : DB × ℕ :=
  syncWith subNameMatch db now

/-! ### Bulk seeding -/

/-- An element of the seeded price list (init_db.py / prices.js), with its
`priceHistory` month→price dict as an insertion-ordered association list. -/
structure BulkPrice where
  id : String
  location : String
  supplier : String
  item : String
  purchaseUnit : String
  unitsPerInv : ℚ
  currentPrice : ℚ
  perUnitCost : ℚ
  priceHistory : List (String × ℚ)
  deriving DecidableEq, Repr

/-- One iteration of `bulk_insert_prices`: `INSERT OR REPLACE` the item row
(modelled as delete-conflicting-then-append), then plain-INSERT one history
row per dict entry. -/
def bulkPriceStep (now : String) (db : DB) (it : BulkPrice) : DB :=
  let items := (db.price_items.filter (fun p => decide (p.id ≠ it.id))) ++
    [{ id := it.id, location := it.location, supplier := it.supplier,
       item := it.item, purchase_unit := it.purchaseUnit,
       units_per_inv := it.unitsPerInv, current_price := it.currentPrice,
       per_unit_cost := it.perUnitCost, archived := false,
       created_at := now, updated_at := now }]
  { db with price_items := items,
            price_history := db.price_history ++
              it.priceHistory.map (fun e =>
                { price_item_id := it.id, month := e.1, price := e.2 }) }

/-- `bulk_insert_prices`. -/
def bulk_insert_prices (db : DB) (items : List BulkPrice) (now : String) : DB :=
  items.foldl (bulkPriceStep now) db

/-! ### CSV export / import of prices (server.py)

The CSV is modelled at the level of parsed records: one `CsvRow` per data
line, with the string cells as written/read by the code.  CSV quoting
(`escape_csv` / `csv.DictReader` unquoting) and file I/O are the out-of-scope
transport layer and round-trip exactly, so they are modelled as the identity.
The two numeric cells are written with `str(units_per_inv)` (exact shortest
round-trip formatting) and `f"{current_price:.2f}"` (two-decimal rounding) and
parsed back with `float(...)`; on the rational model the composition of
formatting and parsing is the identity for the units cell and `round2` for the
price cell, which is how the cells are carried here. -/

/-- One parsed data row of the prices CSV
(`ID,Locations,Supplier,Item,PurchaseUnit,UnitsPerInv,CurrentPrice`). -/
structure CsvRow where
  id : String
  locationsStr : String
  supplier : String
  item : String
  purchaseUnit : String
  unitsPerInv : ℚ
  currentPrice : ℚ
  deriving DecidableEq, Repr

/-- The CSV row `export_prices` writes for one price item. -/
def rowOf (db : DB) (pi : PriceItem) : CsvRow :=
  { id := pi.id,
    locationsStr := joinSemiSp (get_price_item_locations db pi.id),
    supplier := pi.supplier, item := pi.item,
    purchaseUnit := pi.purchase_unit, unitsPerInv := pi.units_per_inv,
    currentPrice := round2 pi.current_price }

/-- `export_prices`: one row per non-archived price item (`get_all_prices`,
`ORDER BY item`), locations semicolon-joined in sorted order, price formatted
to two decimals. -/
def export_prices (db : DB) : List CsvRow :=
  (sortLe (fun a b => strLeB a.item b.item)
     (db.price_items.filter (fun pi => !pi.archived))).map (rowOf db)

/-- The import's parsing of the Locations cell: strip, turn commas into
semicolons, split, strip each name, drop empties. -/
def parseLocations (s : String) : List String :=
  ((splitSemi (commaToSemi (strTrim s))).map strTrim).filter
    (fun x => decide (x ≠ ""))

/-- The running state of `import_prices`: the database plus the
updated/created counters, the collected row error messages, the CSV row number
(`enumerate(reader, start=2)`), and a counter feeding the time-based generated
ids of created items. -/
structure ImportAcc where
  db : DB
  updated : ℕ
  created : ℕ
  rowNum : ℕ
  errors : List String
  nextId : ℕ
  deriving DecidableEq, Repr

/-- The time-based unique id of a created price item, modelled by a counter. -/
def genPriceId (n : ℕ) : String := "price-" ++ toString n

/-- `"Row {row_num}: {msg}"` (apostrophes of the source message omitted). -/
def rowMsg (n : ℕ) (msg : String) : String :=
  "Row " ++ toString n ++ ": " ++ msg

/-- The update/create payload `import_prices` builds from a parsed row. -/
def rowData (row : CsvRow) : PriceData :=
  { locations := parseLocations row.locationsStr, location := "",
    supplier := strTrim row.supplier, item := strTrim row.item,
    purchase_unit := strTrim row.purchaseUnit,
    units_per_inv := row.unitsPerInv, current_price := row.currentPrice,
    month := none }

/-- Process one CSV row of `import_prices`: a blank (stripped) id creates a
new price item, a non-blank id updates in place or records a row error; a
missing item name records a row error first.  Errors never abort the fold. -/
def importRow (now : String) (acc : ImportAcc) (row : CsvRow) : ImportAcc :=
  let item_id := strTrim row.id
  let item_name := strTrim row.item
  let data : PriceData := rowData row
  if item_name = "" then
    { acc with errors := acc.errors ++ [rowMsg acc.rowNum "Item name is required"],
               rowNum := acc.rowNum + 1 }
  else if item_id ≠ "" then
    let res := update_price_item acc.db item_id data now
    if res.2 then
      { acc with db := res.1, updated := acc.updated + 1,
                 rowNum := acc.rowNum + 1 }
    else
      { acc with errors := acc.errors ++
                   [rowMsg acc.rowNum ("Item ID not found: " ++ item_id)],
                 rowNum := acc.rowNum + 1 }
  else
    { acc with db := add_price_item acc.db (genPriceId acc.nextId) data now,
               created := acc.created + 1, nextId := acc.nextId + 1,
               rowNum := acc.rowNum + 1 }

/-- `import_prices` over already-parsed rows. -/
def import_prices (db : DB) (rows : List CsvRow) (now : String)
    (idStart : ℕ) : ImportAcc :=
  rows.foldl (importRow now)
    { db := db, updated := 0, created := 0, rowNum := 2, errors := [],
      nextId := idStart }

/-! ### Observable view of a price item (for the round-trip claim) -/

/-- The fields of a price item named by claim C6: locations (as observed,
sorted), supplier, item name, purchase unit, conversion factor, current price
and per-unit cost — plus the identity they hang off. -/
structure ObsPrice where
  id : String
  locations : List String
  supplier : String
  item : String
  purchase_unit : String
  units_per_inv : ℚ
  current_price : ℚ
  per_unit_cost : ℚ
  deriving DecidableEq, Repr

def obsItem (db : DB) (pi : PriceItem) : ObsPrice :=
  { id := pi.id, locations := get_price_item_locations db pi.id,
    supplier := pi.supplier, item := pi.item,
    purchase_unit := pi.purchase_unit, units_per_inv := pi.units_per_inv,
    current_price := pi.current_price, per_unit_cost := pi.per_unit_cost }

def obsPrices (db : DB) : List ObsPrice := db.price_items.map (obsItem db)

/-! ### Auxiliary definitions used by the claim statements -/

/-- The first count row matching the upsert's conflict key. -/
def findCount (db : DB) (item_id store_name month : String) : Option CountRow :=
  db.inventory_counts.find? (countKey item_id store_name month)

/-- The `(price item, month)` key of a history entry. -/
def histKey (e : HistEntry) : String × String := (e.price_item_id, e.month)

/-- The per-unit-cost invariant as the code maintains it: the divisor is
`units_per_inv` unless that is zero (falsy), in which case 1. -/
def pucInvariant (pi : PriceItem) : Prop :=
  pi.per_unit_cost = round2 (pi.current_price / unitsOr1 pi.units_per_inv)

/-- The per-unit-cost formula exactly as claim C1 states it, with
`max(units_per_inv, 1)` as the divisor. -/
def pucClaimFormula (pi : PriceItem) : Prop :=
  pi.per_unit_cost = round2 (pi.current_price / max pi.units_per_inv 1)

instance (pi : PriceItem) : Decidable (pucInvariant pi) := by
  unfold pucInvariant
  infer_instance

instance (pi : PriceItem) : Decidable (pucClaimFormula pi) := by
  unfold pucClaimFormula
  infer_instance

/-- A LIKE pattern fragment without wildcard metacharacters. -/
def noWild (p : List Char) : Prop := '%' ∉ p ∧ '_' ∉ p

/-- An item name whose lower-casing is free of LIKE wildcards. -/
def noWildStr (s : String) : Prop := noWild (strLower s).data

/-- A string unchanged by Python `.strip()`. -/
def trimFixed (s : String) : Prop := strTrim s = s

instance (p : List Char) : Decidable (noWild p) := by
  unfold noWild
  infer_instance

instance (s : String) : Decidable (noWildStr s) := by
  unfold noWildStr
  infer_instance

instance (s : String) : Decidable (trimFixed s) := by
  unfold trimFixed
  infer_instance

/-- The database states reachable by the request handlers' operations
(the bulk seeding path deliberately excluded — see claim C5).  The id of a
newly added price item is time-based and hence fresh: unused by any existing
price item or (orphaned) history row. -/
inductive Reachable : DB → Prop
  | empty : Reachable emptyDB
  | upd_inventory (db : DB) (id : String) (data : InvData)
      (month store : Option String) (now : String) : Reachable db →
      Reachable (update_inventory_item db id data month store now).1
  | add_inventory (db : DB) (new_id : String) (data : InvData) (now : String) :
      Reachable db → Reachable (add_inventory_item db new_id data now)
  | del_inventory (db : DB) (id : String) : Reachable db →
      Reachable (delete_inventory_item db id).1
  | clear (db : DB) (month store : Option String) : Reachable db →
      Reachable (clear_all_counts db month store)
  | set_price (db : DB) (id month : String) (price : ℚ) (now : String) :
      Reachable db → Reachable (update_price db id month price now).1
  | add_price (db : DB) (new_id : String) (data : PriceData) (now : String) :
      Reachable db →
      (∀ pi ∈ db.price_items, pi.id ≠ new_id) →
      (∀ e ∈ db.price_history, e.price_item_id ≠ new_id) →
      Reachable (add_price_item db new_id data now)
  | upd_price_item (db : DB) (id : String) (data : PriceData) (now : String) :
      Reachable db → Reachable (update_price_item db id data now).1
  | del_price_item (db : DB) (id : String) : Reachable db →
      Reachable (delete_price_item db id).1
  | archive (db : DB) (id : String) (flag : Bool) (now : String) :
      Reachable db → Reachable (archive_price_item db id flag now).1
  | sync (db : DB) (now : String) : Reachable db →
      Reachable (sync_prices_to_inventory db now).1

/-- The well-formedness conditions under which the prices CSV round trip is
lossless: unique non-blank whitespace-free ids, non-empty strip-invariant
names, strip-invariant supplier and purchase unit, a non-zero conversion
factor, a current price that already has at most two decimal places, a
consistent per-unit cost, and location names that are non-empty,
strip-invariant and free of `,`/`;`. -/
def RoundTripHyps (db : DB) : Prop :=
  (db.price_items.map (·.id)).Nodup ∧
  (∀ pi ∈ db.price_items, pi.archived = false →
    (trimFixed pi.id ∧ pi.id ≠ "" ∧ trimFixed pi.item ∧ pi.item ≠ "" ∧
     trimFixed pi.supplier ∧ trimFixed pi.purchase_unit ∧
     pi.units_per_inv ≠ 0 ∧ round2 pi.current_price = pi.current_price ∧
     pi.per_unit_cost = round2 (pi.current_price / pi.units_per_inv))) ∧
  db.price_item_locations.Nodup ∧
  (∀ pr ∈ db.price_item_locations,
    pr.2 ≠ "" ∧ trimFixed pr.2 ∧ ',' ∉ pr.2.data ∧ ';' ∉ pr.2.data)

instance (db : DB) : Decidable (RoundTripHyps db) := by
  unfold RoundTripHyps
  infer_instance

/-! ### Concrete instances for counterexamples and witnesses -/

/-- A price item whose conversion factor is strictly between 0 and 1:
`round(1 / max(0.5, 1), 2) = 1`, but the code computes `round(1 / 0.5, 2) = 2`. -/
def dataHalfUnit : PriceData :=
  { locations := [], location := "", supplier := "", item := "Oil",
    purchase_unit := "case", units_per_inv := 1/2, current_price := 1,
    month := none }

/-- A generic small price data record. -/
def dataPlain : PriceData :=
  { locations := ["Shelf A"], location := "", supplier := "Acme",
    item := "Flour", purchase_unit := "bag", units_per_inv := 4,
    current_price := 10, month := some "2024-01" }

/-- A price item with a three-decimal current price (0.011): exporting
formats it as `0.01`, so the CSV round trip changes it. -/
def cxPriceItem : PriceItem :=
  { id := "p1", location := "", supplier := "S", item := "Flour",
    purchase_unit := "bag", units_per_inv := 1, current_price := 11/1000,
    per_unit_cost := 1/100, archived := false,
    created_at := "t0", updated_at := "t0" }

def cxRoundTripDB : DB := { emptyDB with price_items := [cxPriceItem] }

/-- A well-formed price item satisfying `RoundTripHyps`. -/
def wPriceItem : PriceItem :=
  { id := "p1", location := "Shelf A", supplier := "Acme", item := "Flour",
    purchase_unit := "bag", units_per_inv := 4, current_price := 10,
    per_unit_cost := 5/2, archived := false,
    created_at := "t0", updated_at := "t0" }

def wRoundTripDB : DB :=
  { emptyDB with price_items := [wPriceItem], locations := ["Shelf A"],
                 price_item_locations := [("p1", "Shelf A")] }

/-- A price item whose name contains a LIKE wildcard (`_`). -/
def cxWildPriceItem : PriceItem :=
  { id := "p1", location := "", supplier := "", item := "a_c",
    purchase_unit := "", units_per_inv := 1, current_price := 5,
    per_unit_cost := 5, archived := false,
    created_at := "t0", updated_at := "t0" }

/-- An inventory item named `abc`: not a substring match for `a_c` in either
direction, but a LIKE match. -/
def cxWildInvItem : InvItem :=
  { id := "i1", supplier := "", location := "", item := "abc", unit := "",
    cost := 0, count1 := 0, count2 := 0, count3 := 0, count4 := 0,
    is_custom := false, archived := false,
    created_at := "t0", updated_at := "t0" }

def cxWildDB : DB :=
  { emptyDB with price_items := [cxWildPriceItem],
                 inventory_items := [cxWildInvItem] }

/-- A sync witness database: price item `Tomato`, inventory item
`Roma Tomato` (substring match, cost differs). -/
def wSyncDB : DB :=
  { emptyDB with
    price_items := [{ id := "p1", location := "", supplier := "Farm",
                      item := "Tomato", purchase_unit := "case",
                      units_per_inv := 1, current_price := 3,
                      per_unit_cost := 3, archived := false,
                      created_at := "t0", updated_at := "t0" }],
    inventory_items := [{ id := "i1", supplier := "", location := "",
                          item := "Roma Tomato", unit := "lb", cost := 0,
                          count1 := 0, count2 := 0, count3 := 0, count4 := 0,
                          is_custom := false, archived := false,
                          created_at := "t0", updated_at := "t0" }] }

/-- A seeded bulk price list containing the same item id twice with the same
history month: a single `bulk_insert_prices` call then inserts two
`price_history` rows for the same `(item, month)`. -/
def cxBulkItem : BulkPrice :=
  { id := "seed-1", location := "", supplier := "S", item := "Rice",
    purchaseUnit := "bag", unitsPerInv := 1, currentPrice := 5,
    perUnitCost := 5, priceHistory := [("2024-01", 5)] }

def cxBulkDB : DB := bulk_insert_prices emptyDB [cxBulkItem, cxBulkItem] "t0"

/-- A small inventory database for witnesses: one seeded (non-custom) item. -/
def wInvItem : InvItem :=
  { id := "i1", supplier := "Acme", location := "Walk-in", item := "Butter",
    unit := "lb", cost := 3, count1 := 0, count2 := 0, count3 := 0,
    count4 := 0, is_custom := false, archived := false,
    created_at := "t0", updated_at := "t0" }

def wInvDB : DB :=
  { emptyDB with
    inventory_items := [wInvItem],
    inventory_counts := [{ inventory_item_id := "i1", store := "Inman",
                           month := "2024-01", count1 := 1, count2 := 2,
                           count3 := 0, count4 := 0, cost := some 3,
                           created_at := "t0", updated_at := "t0" }] }

/-- Inventory update payloads used by witnesses. -/
def wInvData1 : InvData :=
  { supplier := "Acme", location := "Walk-in", item := "Butter", unit := "lb",
    cost := 5, count1 := 1, count2 := 0, count3 := 0, count4 := 0 }

def wInvData2 : InvData :=
  { supplier := "Acme", location := "Walk-in", item := "Butter", unit := "lb",
    cost := 7, count1 := 4, count2 := 5, count3 := 6, count4 := 7 }

/-- A database reached from empty by one `add_price_item` (with its seeded
history month) followed by a `setPrice` on a new month. -/
def wReachDB : DB :=
  (update_price (add_price_item emptyDB "p1" dataPlain "t0")
    "p1" "2024-02" 7 "t1").1

/-- The row `update_price` produces in the C1 witness:
`round2 (7 / 4) = 7/4`. -/
def wSetPriceRow : PriceItem :=
  { wPriceItem with current_price := 7, per_unit_cost := 7/4,
                    updated_at := "t1" }

/-- A database for the archive-cascade witness: price item `Tomato`, one
case-insensitively matching and one non-matching inventory item. -/
def wArchiveDB : DB :=
  { emptyDB with
    price_items := [{ id := "p1", location := "", supplier := "Farm",
                      item := "Tomato", purchase_unit := "case",
                      units_per_inv := 1, current_price := 3,
                      per_unit_cost := 3, archived := false,
                      created_at := "t0", updated_at := "t0" }],
    inventory_items :=
      [{ id := "i1", supplier := "", location := "", item := "tomato",
         unit := "lb", cost := 0, count1 := 0, count2 := 0, count3 := 0,
         count4 := 0, is_custom := false, archived := false,
         created_at := "t0", updated_at := "t0" },
       { id := "i2", supplier := "", location := "", item := "Basil",
         unit := "lb", cost := 0, count1 := 0, count2 := 0, count3 := 0,
         count4 := 0, is_custom := false, archived := false,
         created_at := "t0", updated_at := "t0" }] }

/-! ## Theorems -/

/-! ### Generic list lemmas -/

theorem map_if_not {α : Type} (f : α → α) (c : α → Prop) [DecidablePred c]
    (l : List α) (h : ∀ a ∈ l, ¬ c a) :
    (l.map fun a => if c a then f a else a) = l := by
  have : (l.map fun a => if c a then f a else a) = l.map id :=
    List.map_congr_left (fun a ha => by simp [h a ha])
  simpa using this

theorem find?_map_guard {α : Type} (key : α → Bool) (f : α → α)
    (hf : ∀ a, key (f a) = key a) (l : List α) :
    (l.map fun a => if key a then f a else a).find? key = (l.find? key).map f := by
  induction l with
  | nil => rfl
  | cons a l ih =>
    cases h : key a with
    | true => simp [List.find?_cons, h, hf]
    | false => simpa [List.find?_cons, h] using ih

/-! ### C8: deleting a non-custom inventory item is a no-op -/

/-- Claim C8: for every inventory item id whose (matching) items all have the
custom flag unset, `delete_inventory_item` deletes nothing, leaves the whole
database state unchanged, and returns `false` (not deleted); only
custom-flagged items can be deleted. -/
theorem C8_delete_noncustom_noop (db : DB) (item_id : String)
    (h : ∀ it ∈ db.inventory_items, it.id = item_id → it.is_custom = false) :
    delete_inventory_item db item_id = (db, false) := by
  unfold delete_inventory_item
  have hfilter : (db.inventory_items.filter
      (fun it => !(decide (it.id = item_id) && it.is_custom))) =
      db.inventory_items := by
    apply List.filter_eq_self.mpr
    intro it hit
    by_cases hid : it.id = item_id
    · simp [hid, h it hit hid]
    · simp [hid]
  have hany : db.inventory_items.any
      (fun it => decide (it.id = item_id) && it.is_custom) = false := by
    apply List.any_eq_false.mpr
    intro it hit
    by_cases hid : it.id = item_id
    · simp [hid, h it hit hid]
    · simp [hid]
  rw [hfilter, hany]

/-- Witness for C8 at a concrete database holding one seeded item. -/
theorem C8_delete_noncustom_noop_witness :
    delete_inventory_item wInvDB "i1" = (wInvDB, false) :=
  C8_delete_noncustom_noop wInvDB "i1" (by with_unfolding_all decide)

/-! ### C9: clearCounts with no filter is a no-op -/

/-- Claim C9: with neither a (truthy) month nor store filter,
`clear_all_counts` leaves the database exactly unchanged (not a full wipe);
with at least one filter it deletes exactly the count rows matching all
supplied filters and touches nothing else. -/
theorem C9_clear_counts (db : DB) (month store : Option String) :
    (optTruthy month = false ∧ optTruthy store = false →
      clear_all_counts db month store = db) ∧
    (optTruthy month || optTruthy store →
      clear_all_counts db month store =
        { db with inventory_counts := db.inventory_counts.filter (fun r =>
            !((if optTruthy month then decide (r.month = month.getD "") else true)
              && (if optTruthy store then decide (r.store = store.getD "")
                  else true))) }) := by
  constructor
  · rintro ⟨hm, hs⟩
    unfold clear_all_counts
    simp [hm, hs]
  · intro h
    unfold clear_all_counts
    simp only [h]
    rfl

/-- Witness for C9: both branches at concrete inputs; in particular the
no-filter call leaves the non-empty counts table intact. -/
theorem C9_clear_counts_witness :
    clear_all_counts wInvDB none none = wInvDB ∧
    clear_all_counts wInvDB (some "2024-01") none =
      { wInvDB with inventory_counts :=
          wInvDB.inventory_counts.filter (fun r =>
            !((if optTruthy (some "2024-01") then decide (r.month = "2024-01")
               else true) && true)) } := by
  constructor
  · exact (C9_clear_counts wInvDB none none).1 (by constructor <;> rfl)
  · have := (C9_clear_counts wInvDB (some "2024-01") none).2
      (by with_unfolding_all decide)
    simpa using this

/-! ### C10: inventory update with a missing id still inserts a count row -/

/-- Claim C10: updating a non-existent inventory item with a month supplied
returns a not-found result and modifies no item row, yet it still inserts a
count row keyed by `(id, store-or-empty, month)` into `inventory_counts`. -/
theorem C10_update_missing_inserts_count (db : DB) (item_id : String)
    (data : InvData) (m : String) (store : Option String) (now : String)
    (hm : m ≠ "")
    (hid : ∀ it ∈ db.inventory_items, it.id ≠ item_id)
    (hkey : ∀ r ∈ db.inventory_counts,
      countKey item_id (store.getD "") m r = false) :
    (update_inventory_item db item_id data (some m) store now).2 = none ∧
    (update_inventory_item db item_id data (some m) store now).1.inventory_items
      = db.inventory_items ∧
    (update_inventory_item db item_id data (some m) store now).1.inventory_counts
      = db.inventory_counts ++ [newCount item_id (store.getD "") m data now] := by
  have hitems : (db.inventory_items.map (fun it =>
      if it.id = item_id then
        { it with supplier := data.supplier, location := data.location,
                  item := data.item, unit := data.unit, cost := data.cost,
                  updated_at := now }
      else it)) = db.inventory_items :=
    map_if_not _ _ _ (fun it hit => hid it hit)
  have hany : db.inventory_counts.any (countKey item_id (store.getD "") m)
      = false :=
    List.any_eq_false.mpr (fun r hr => by simp [hkey r hr])
  have heq : (update_inventory_item db item_id data (some m) store now).1
      = { db with inventory_counts := db.inventory_counts ++
            [newCount item_id (store.getD "") m data now] } := by
    simp only [update_inventory_item, upsertCount, hitems, hany, hm,
      ne_eq, not_false_iff, if_true, Bool.false_eq_true, if_false]
  refine ⟨?_, ?_, ?_⟩
  · have : (update_inventory_item db item_id data (some m) store now).2
        = get_inventory_item
            (update_inventory_item db item_id data (some m) store now).1
            item_id (some m) store := rfl
    rw [this, heq]
    unfold get_inventory_item
    rw [List.find?_eq_none.mpr (fun it hit => by simp [hid it hit])]
  · rw [heq]
  · rw [heq]

/-! ### Frame lemmas for set_price_item_locations -/

theorem setLocStep_frame (pid : String) (d : DB) (n : String) :
    (setLocStep pid d n).price_items = d.price_items ∧
    (setLocStep pid d n).price_history = d.price_history ∧
    (setLocStep pid d n).inventory_items = d.inventory_items ∧
    (setLocStep pid d n).inventory_counts = d.inventory_counts := by
  unfold setLocStep
  split
  · exact ⟨rfl, rfl, rfl, rfl⟩
  · dsimp only
    split <;> split <;> exact ⟨rfl, rfl, rfl, rfl⟩

theorem setLocs_fold_frame (pid : String) (names : List String) (d : DB) :
    ((names.foldl (setLocStep pid) d).price_items = d.price_items ∧
     (names.foldl (setLocStep pid) d).price_history = d.price_history ∧
     (names.foldl (setLocStep pid) d).inventory_items = d.inventory_items ∧
     (names.foldl (setLocStep pid) d).inventory_counts = d.inventory_counts) := by
  induction names generalizing d with
  | nil => exact ⟨rfl, rfl, rfl, rfl⟩
  | cons n ns ih =>
    have h0 := setLocStep_frame pid d n
    have h1 := ih (setLocStep pid d n)
    simp only [List.foldl_cons]
    exact ⟨h1.1.trans h0.1, h1.2.1.trans h0.2.1,
           h1.2.2.1.trans h0.2.2.1, h1.2.2.2.trans h0.2.2.2⟩

theorem set_locs_price_items (db : DB) (pid : String) (names : List String) :
    (set_price_item_locations db pid names).price_items = db.price_items :=
  (setLocs_fold_frame pid names _).1

theorem set_locs_price_history (db : DB) (pid : String) (names : List String) :
    (set_price_item_locations db pid names).price_history =
      db.price_history :=
  (setLocs_fold_frame pid names _).2.1

theorem set_locs_inventory_items (db : DB) (pid : String)
    (names : List String) :
    (set_price_item_locations db pid names).inventory_items =
      db.inventory_items :=
  (setLocs_fold_frame pid names _).2.2.1

/-! ### C1: the stored per-unit cost formula -/

theorem unitsOr1_idem (q : ℚ) : unitsOr1 (unitsOr1 q) = unitsOr1 q := by
  unfold unitsOr1
  split
  · simp
  · rfl

theorem add_price_item_items (db : DB) (nid : String) (data : PriceData)
    (now : String) :
    (add_price_item db nid data now).price_items
      = db.price_items ++ [newPriceRow nid data now] := by
  unfold add_price_item
  dsimp only
  split
  · rw [set_price_item_locations, (setLocs_fold_frame nid _ _).1]
    split
    · split
      · split <;> rfl
      · rfl
    · rfl
  · split
    · split
      · split <;> rfl
      · rfl
    · rfl

theorem update_price_item_items (db : DB) (item_id : String)
    (data : PriceData) (now : String) :
    (update_price_item db item_id data now).1.price_items
      = db.price_items.map (fun pi =>
          if pi.id = item_id then overwritePriceRow data now pi else pi) := by
  unfold update_price_item
  dsimp only
  split
  · exact set_locs_price_items _ _ _
  · rfl

/-- Claim C1 as amended: after `add_price_item`, `update_price_item` or
`update_price`, the affected price item's stored `per_unit_cost` equals
`round(current_price / d, 2)` where the divisor `d` is the stored
`units_per_inv` unless that is zero, in which case 1 (`units_per_inv or 1`) —
not `max(units_per_inv, 1)` as the claim stated.  (The `update_price` part
assumes primary-key-unique ids.) -/
theorem C1_puc_consistent :
    (∀ (db : DB) (nid : String) (data : PriceData) (now : String)
       (pi : PriceItem),
      (add_price_item db nid data now).price_items.getLast? = some pi →
      pucInvariant pi) ∧
    (∀ (db : DB) (id : String) (data : PriceData) (now : String)
       (pi : PriceItem),
      pi ∈ (update_price_item db id data now).1.price_items → pi.id = id →
      pucInvariant pi) ∧
    (∀ (db : DB) (id month : String) (price : ℚ) (now : String)
       (pi : PriceItem),
      (db.price_items.map (·.id)).Nodup →
      pi ∈ (update_price db id month price now).1.price_items → pi.id = id →
      pucInvariant pi) := by
  refine ⟨?_, ?_, ?_⟩
  · intro db nid data now pi hlast
    rw [add_price_item_items, List.getLast?_concat] at hlast
    cases hlast
    unfold pucInvariant newPriceRow
    simp [unitsOr1_idem]
  · intro db id data now pi hmem hpid
    rw [update_price_item_items] at hmem
    obtain ⟨q, hq, hpq⟩ := List.mem_map.mp hmem
    by_cases hqid : q.id = id
    · rw [if_pos hqid] at hpq
      cases hpq
      unfold pucInvariant overwritePriceRow
      simp [unitsOr1_idem]
    · rw [if_neg hqid] at hpq
      exact absurd (hpq ▸ hpid) hqid
  · intro db id month price now pi hnodup hmem hpid
    unfold update_price at hmem
    cases hfind : db.price_items.find? (fun p => decide (p.id = id)) with
    | none =>
      rw [hfind] at hmem
      have := List.find?_eq_none.mp hfind pi hmem
      simp [hpid] at this
    | some p0 =>
      rw [hfind] at hmem
      dsimp only at hmem
      obtain ⟨q, hq, hpq⟩ := List.mem_map.mp hmem
      by_cases hqid : q.id = id
      · rw [if_pos hqid] at hpq
        have hp0mem := List.mem_of_find?_eq_some hfind
        have hp0id : p0.id = id := by
          have := List.find?_some hfind
          simpa using this
        have hqp0 : q = p0 :=
          List.inj_on_of_nodup_map hnodup hq hp0mem (by rw [hqid, hp0id])
        cases hpq
        unfold pucInvariant
        simp [hqp0]
      · rw [if_neg hqid] at hpq
        exact absurd (hpq ▸ hpid) hqid

/-- Counterexample to claim C1 as stated: `add_price_item` with
`units_per_inv = 0.5` and `current_price = 1` stores
`per_unit_cost = round(1 / 0.5, 2) = 2`, but the claim's formula demands
`round(1 / max(0.5, 1), 2) = 1`. -/
theorem C1_claim_formula_false :
    ¬ (∀ pi ∈ (add_price_item emptyDB "p1" dataHalfUnit "t0").price_items,
        pucClaimFormula pi) := by
  with_unfolding_all decide

/-- Witness for C1: the amended formula holds at concrete runs of all three
operations. -/
theorem C1_puc_consistent_witness :
    pucInvariant (newPriceRow "p2" dataPlain "t0") ∧
    pucInvariant (overwritePriceRow dataPlain "t1" wPriceItem) ∧
    pucInvariant wSetPriceRow :=
  ⟨C1_puc_consistent.1 emptyDB "p2" dataPlain "t0" _
     (by with_unfolding_all decide),
   C1_puc_consistent.2.1 wRoundTripDB "p1" dataPlain "t1"
     (overwritePriceRow dataPlain "t1" wPriceItem)
     (by with_unfolding_all decide) (by with_unfolding_all decide),
   C1_puc_consistent.2.2 wRoundTripDB "p1" "2024-02" 7 "t1" wSetPriceRow
     (by with_unfolding_all decide) (by with_unfolding_all decide)
     (by with_unfolding_all decide)⟩

/-! ### C2: second upsert overwrites counts but keeps the cost snapshot -/

theorem countKey_upCount (item_id st m : String) (data : InvData)
    (now : String) (r : CountRow) :
    countKey item_id st m (upCount data now r) = countKey item_id st m r := rfl

theorem update_counts_eq (db : DB) (item_id : String) (data : InvData)
    (m : String) (store : Option String) (now : String) (hm : m ≠ "") :
    (update_inventory_item db item_id data (some m) store now).1.inventory_counts
      = upsertCount db.inventory_counts item_id (store.getD "") m data now := by
  simp only [update_inventory_item, hm, ne_eq, not_false_iff, if_true]

theorem upsert_find (l : List CountRow) (item_id st m : String)
    (data : InvData) (now : String) :
    (upsertCount l item_id st m data now).find? (countKey item_id st m)
      = some (match l.find? (countKey item_id st m) with
              | some r => upCount data now r
              | none => newCount item_id st m data now) := by
  unfold upsertCount
  cases hany : l.any (countKey item_id st m) with
  | true =>
    simp only [hany, if_true]
    rw [find?_map_guard _ _ (fun r => countKey_upCount item_id st m data now r)]
    obtain ⟨a, ha, hpa⟩ := List.any_eq_true.mp hany
    obtain ⟨r, hr⟩ := Option.isSome_iff_exists.mp
      (List.find?_isSome.mpr ⟨a, ha, hpa⟩)
    rw [hr]
    rfl
  | false =>
    have hnone : l.find? (countKey item_id st m) = none :=
      List.find?_eq_none.mpr (fun a ha => by
        have := List.any_eq_false.mp hany a ha
        simpa using this)
    simp only [hany, Bool.false_eq_true, if_false]
    rw [List.find?_append, hnone]
    have hkeynew : countKey item_id st m (newCount item_id st m data now)
        = true := by simp [countKey, newCount]
    simp [hnone, List.find?_cons, hkeynew]

/-- Claim C2: upserting counts twice for the same `(item, store, month)` key
overwrites `count1..count4` with the second write's values but leaves the
stored cost snapshot exactly what it was after the first write. -/
theorem C2_upsert_twice (db : DB) (item_id : String) (store : Option String)
    (m : String) (data1 data2 : InvData) (now1 now2 : String) (hm : m ≠ "") :
    ((findCount (update_inventory_item
        (update_inventory_item db item_id data1 (some m) store now1).1
        item_id data2 (some m) store now2).1 item_id (store.getD "") m).map
      (fun r => (r.count1, r.count2, r.count3, r.count4))
      = some (data2.count1, data2.count2, data2.count3, data2.count4)) ∧
    ((findCount (update_inventory_item
        (update_inventory_item db item_id data1 (some m) store now1).1
        item_id data2 (some m) store now2).1 item_id (store.getD "") m).bind
        (·.cost)
      = (findCount (update_inventory_item db item_id data1 (some m) store
          now1).1 item_id (store.getD "") m).bind (·.cost)) := by
  have h1 := update_counts_eq db item_id data1 m store now1 hm
  have h2 := update_counts_eq
    (update_inventory_item db item_id data1 (some m) store now1).1
    item_id data2 m store now2 hm
  unfold findCount
  rw [h2, h1, upsert_find, upsert_find]
  cases h0 : db.inventory_counts.find? (countKey item_id (store.getD "") m) with
  | none => simp [upCount, newCount]
  | some r0 => simp [upCount, newCount]

/-- Witness for C2 at a concrete database and two concrete payloads: the
second write's counts land, the first write's cost snapshot (5) survives. -/
theorem C2_upsert_twice_witness :
    ((findCount (update_inventory_item
        (update_inventory_item wInvDB "i1" wInvData1 (some "2024-03")
          (some "Central") "t1").1
        "i1" wInvData2 (some "2024-03") (some "Central") "t2").1
        "i1" "Central" "2024-03").map
      (fun r => (r.count1, r.count2, r.count3, r.count4))
      = some (4, 5, 6, 7)) ∧
    ((findCount (update_inventory_item
        (update_inventory_item wInvDB "i1" wInvData1 (some "2024-03")
          (some "Central") "t1").1
        "i1" wInvData2 (some "2024-03") (some "Central") "t2").1
        "i1" "Central" "2024-03").bind (·.cost)
      = (findCount (update_inventory_item wInvDB "i1" wInvData1
          (some "2024-03") (some "Central") "t1").1
          "i1" "Central" "2024-03").bind (·.cost)) := by
  have h := C2_upsert_twice wInvDB "i1" (some "Central") "2024-03"
    wInvData1 wInvData2 "t1" "t2" (by with_unfolding_all decide)
  exact ⟨h.1, h.2⟩

/-! ### C4: archiving a price item cascades to name-matching inventory -/

/-- Claim C4: for an existing price item, `archive_price_item` sets its
archived flag, sets the same flag on exactly the inventory items whose names
match case-insensitively (no other inventory row changes), and returns the
number of matching inventory rows. -/
theorem C4_archive_cascades (db : DB) (item_id : String) (arch : Bool)
    (now : String) (pi : PriceItem)
    (hfind : db.price_items.find? (fun p => decide (p.id = item_id)) = some pi) :
    (archive_price_item db item_id arch now).2 =
      some (db.inventory_items.filter
        (fun it => decide (strLower it.item = strLower pi.item))).length ∧
    (archive_price_item db item_id arch now).1.inventory_items =
      db.inventory_items.map (fun it =>
        if strLower it.item = strLower pi.item then
          { it with archived := arch, updated_at := now } else it) ∧
    (∀ p ∈ (archive_price_item db item_id arch now).1.price_items,
      p.id = item_id → p.archived = arch) := by
  unfold archive_price_item
  rw [hfind]
  refine ⟨rfl, rfl, ?_⟩
  intro p hp hpid
  simp only [List.mem_map] at hp
  obtain ⟨q, hq, hpq⟩ := hp
  by_cases hqid : q.id = item_id
  · rw [if_pos hqid] at hpq
    rw [← hpq]
  · rw [if_neg hqid] at hpq
    exact absurd (hpq ▸ hpid) hqid

/-- Witness for C4: archiving `Tomato` archives the inventory item `tomato`,
leaves `Basil` untouched, and reports one affected row. -/
theorem C4_archive_cascades_witness :
    (archive_price_item wArchiveDB "p1" true "t1").2 =
      some (wArchiveDB.inventory_items.filter
        (fun it => decide (strLower it.item = strLower "Tomato"))).length ∧
    (archive_price_item wArchiveDB "p1" true "t1").1.inventory_items =
      wArchiveDB.inventory_items.map (fun it =>
        if strLower it.item = strLower "Tomato" then
          { it with archived := true, updated_at := "t1" } else it) ∧
    (∀ p ∈ (archive_price_item wArchiveDB "p1" true "t1").1.price_items,
      p.id = "p1" → p.archived = true) := by
  have h := C4_archive_cascades wArchiveDB "p1" true "t1"
    { id := "p1", location := "", supplier := "Farm", item := "Tomato",
      purchase_unit := "case", units_per_inv := 1, current_price := 3,
      per_unit_cost := 3, archived := false,
      created_at := "t0", updated_at := "t0" }
    (by with_unfolding_all decide)
  exact h

/-! ### C5: at most one history entry per (price item, month) -/

theorem updateFirstHist_keys (id m : String) (p : ℚ) (l : List HistEntry) :
    (updateFirstHist id m p l).map histKey = l.map histKey := by
  induction l with
  | nil => rfl
  | cons e es ih =>
    unfold updateFirstHist
    split
    · simp [histKey]
    · simp [ih, histKey]

theorem upd_inventory_history (db : DB) (id : String) (data : InvData)
    (month store : Option String) (now : String) :
    (update_inventory_item db id data month store now).1.price_history
      = db.price_history := by
  unfold update_inventory_item
  dsimp only
  cases month with
  | none => rfl
  | some m =>
    split
    all_goals first | rfl | (split <;> rfl)

theorem clear_counts_history (db : DB) (month store : Option String) :
    (clear_all_counts db month store).price_history = db.price_history := by
  unfold clear_all_counts
  dsimp only
  split <;> rfl

theorem archive_history (db : DB) (id : String) (flag : Bool) (now : String) :
    (archive_price_item db id flag now).1.price_history = db.price_history := by
  unfold archive_price_item
  split <;> rfl

theorem upd_price_item_history (db : DB) (id : String) (data : PriceData)
    (now : String) :
    (update_price_item db id data now).1.price_history = db.price_history := by
  unfold update_price_item
  dsimp only
  split
  · exact set_locs_price_history _ _ _
  · rfl

theorem add_price_item_history (db : DB) (nid : String) (data : PriceData)
    (now : String) :
    (add_price_item db nid data now).price_history
      = db.price_history ++
        (if 0 < data.current_price then
          (match data.month with
           | some m => if m ≠ "" then
               [{ price_item_id := nid, month := m,
                  price := data.current_price : HistEntry }] else []
           | none => [])
         else []) := by
  unfold add_price_item
  dsimp only
  split
  · rw [set_price_item_locations, (setLocs_fold_frame nid _ _).2.1]
    split
    · split
      · split
        · simp_all
        · simp_all
      · simp_all
    · simp_all
  · split
    · split
      · split
        · simp_all
        · simp_all
      · simp_all
    · simp_all

/-- The appended history key is fresh when no existing entry matches the
(item, month) pair. -/
theorem histKey_not_mem (l : List HistEntry) (id m : String)
    (h : l.any (fun e =>
      decide (e.price_item_id = id) && decide (e.month = m)) = false) :
    (id, m) ∉ l.map histKey := by
  intro hmem
  obtain ⟨e, he, hke⟩ := List.mem_map.mp hmem
  have := List.any_eq_false.mp h e he
  unfold histKey at hke
  have h1 : e.price_item_id = id := congrArg Prod.fst hke
  have h2 : e.month = m := congrArg Prod.snd hke
  simp [h1, h2] at this

/-- Claim C5 as amended: in every state reachable by the request handlers'
operations — `setPrice`, `addPriceItem` (fresh id), `updatePriceItem`,
`deletePriceItem`, archive and the inventory operations, but not the bulk
seeding path — the price history holds at most one entry per
(price item, month). -/
theorem C5_hist_unique (db : DB) (h : Reachable db) :
    (db.price_history.map histKey).Nodup := by
  induction h with
  | empty => simp [emptyDB]
  | upd_inventory db id data month store now _ ih =>
    rw [upd_inventory_history]; exact ih
  | add_inventory db new_id data now _ ih => exact ih
  | del_inventory db id _ ih => exact ih
  | clear db month store _ ih => rw [clear_counts_history]; exact ih
  | set_price db id month price now _ ih =>
    unfold update_price
    cases hfind : db.price_items.find? (fun pi => decide (pi.id = id)) with
    | none => exact ih
    | some p0 =>
      dsimp only
      cases hany : db.price_history.any (fun e =>
          decide (e.price_item_id = id) && decide (e.month = month)) with
      | true =>
        simp only [hany, if_true]
        rw [updateFirstHist_keys]
        exact ih
      | false =>
        simp only [hany, Bool.false_eq_true, if_false, List.map_append]
        rw [List.nodup_append]
        refine ⟨ih, by simp [histKey], ?_⟩
        intro k hk
        simp only [List.map_cons, List.map_nil, List.mem_singleton]
        intro hke
        rw [hke] at hk
        exact histKey_not_mem db.price_history id month hany hk
  | add_price db new_id data now _ hfresh hfreshHist ih =>
    rw [add_price_item_history]
    split
    · split
      · split
        · rw [List.map_append, List.nodup_append]
          refine ⟨ih, by simp [histKey], ?_⟩
          intro k hk
          simp only [List.map_cons, List.map_nil, List.mem_singleton]
          intro hke
          obtain ⟨e, he, hkee⟩ := List.mem_map.mp hk
          have : e.price_item_id = new_id := by
            have := congrArg Prod.fst (hkee.trans hke)
            simpa [histKey] using this
          exact hfreshHist e he this
        · simpa using ih
      · simpa using ih
    · simpa using ih
  | upd_price_item db id data now _ ih =>
    rw [upd_price_item_history]; exact ih
  | del_price_item db id _ ih => exact ih
  | archive db id flag now _ ih => rw [archive_history]; exact ih
  | sync db now _ ih => exact ih

/-- Counterexample to claim C5 as stated: the bulk seeding path
(`bulk_insert_prices`) inserts history rows with plain INSERTs, so seeding
the same item id twice with the same month — a single call with a
duplicated seed entry — leaves two `price_history` entries for one
`(price item, month)` key. -/
theorem C5_bulk_duplicates_history :
    ¬ (cxBulkDB.price_history.map histKey).Nodup := by
  with_unfolding_all decide

/-- Witness for C5: a concrete reachable database (add then set-price, two
history months) satisfies the uniqueness invariant. -/
theorem C5_hist_unique_witness :
    (wReachDB.price_history.map histKey).Nodup :=
  C5_hist_unique wReachDB
    (Reachable.set_price _ "p1" "2024-02" 7 "t1"
      (Reachable.add_price _ "p1" dataPlain "t0" Reachable.empty
        (by with_unfolding_all decide) (by with_unfolding_all decide)))

/-! ### C3: reconciliation — LIKE matching versus substring matching -/

theorem likeRest_congr (f g : List Char → Bool) (h : ∀ u, f u = g u) :
    ∀ s, likeRest f s = likeRest g s := by
  intro s
  induction s with
  | nil => simp [likeRest, h]
  | cons c s ih => simp [likeRest, h, ih]

theorem likeM_percent_cons (ps : List Char) (s : List Char) :
    likeM ('%' :: ps) s = likeRest (likeM ps) s := by
  simp [likeM]

theorem likeRest_likeM_nil (s : List Char) :
    likeRest (likeM []) s = true := by
  induction s with
  | nil => rfl
  | cons c s ih =>
    have h : likeRest (likeM []) (c :: s)
        = (likeM [] (c :: s) || likeRest (likeM []) s) := rfl
    rw [h, ih]
    rfl

theorem likeM_append_percent (p : List Char) (hp : noWild p) :
    ∀ s, likeM (p ++ ['%']) s = startsWithL p s := by
  induction p with
  | nil =>
    intro s
    simp only [List.nil_append, startsWithL]
    rw [likeM_percent_cons, likeRest_likeM_nil]
  | cons c ps ih =>
    have hc1 : c ≠ '%' := by
      intro h
      exact hp.1 (h ▸ List.mem_cons_self c ps)
    have hc2 : c ≠ '_' := by
      intro h
      exact hp.2 (h ▸ List.mem_cons_self c ps)
    have hps : noWild ps :=
      ⟨fun h => hp.1 (List.mem_cons_of_mem c h),
       fun h => hp.2 (List.mem_cons_of_mem c h)⟩
    intro s
    cases s with
    | nil => simp [likeM, startsWithL, hc1]
    | cons d s' => simp [likeM, startsWithL, hc1, hc2, ih hps s']

theorem likeContains_eq_containsSub (p : List Char) (hp : noWild p)
    (s : List Char) : likeContains p s = containsSub p s := by
  unfold likeContains containsSub
  rw [likeM_percent_cons]
  exact likeRest_congr _ _ (fun u => likeM_append_percent p hp u) s

theorem likeNameMatch_eq_subNameMatch (pn invn : String)
    (hp : noWildStr pn) (hi : noWildStr invn) :
    likeNameMatch pn invn = subNameMatch pn invn := by
  unfold likeNameMatch subNameMatch
  rw [likeContains_eq_containsSub _ hp, likeContains_eq_containsSub _ hi]

theorem syncStepWith_congr (f g : String → String → Bool) (now : String)
    (pick : PricePick) (invs : List InvItem)
    (h : ∀ it ∈ invs, f pick.item it.item = g pick.item it.item) :
    syncStepWith f now pick invs = syncStepWith g now pick invs := by
  unfold syncStepWith
  dsimp only
  have hupd : ∀ it ∈ invs,
      (f pick.item it.item && syncNeedsUpdate pick it)
        = (g pick.item it.item && syncNeedsUpdate pick it) :=
    fun it hit => by rw [h it hit]
  rw [List.map_congr_left (fun it hit => by rw [hupd it hit]),
      List.filter_congr hupd]

theorem syncStepWith_items (f : String → String → Bool) (now : String)
    (pick : PricePick) (invs : List InvItem) :
    ((syncStepWith f now pick invs).1).map (·.item) = invs.map (·.item) := by
  unfold syncStepWith
  dsimp only
  rw [List.map_map]
  apply List.map_congr_left
  intro it hit
  by_cases h : (f pick.item it.item && syncNeedsUpdate pick it) = true
  · simp [Function.comp, h]
  · simp [Function.comp, h]

theorem syncFold_eq (now : String) (picks : List PricePick)
    (hp : ∀ pick ∈ picks, noWildStr pick.item) :
    ∀ (invs : List InvItem) (n : ℕ), (∀ it ∈ invs, noWildStr it.item) →
    picks.foldl (fun (acc : List InvItem × ℕ) pick =>
        let r := syncStepWith likeNameMatch now pick acc.1
        (r.1, acc.2 + r.2)) (invs, n)
      = picks.foldl (fun (acc : List InvItem × ℕ) pick =>
          let r := syncStepWith subNameMatch now pick acc.1
          (r.1, acc.2 + r.2)) (invs, n) := by
  induction picks with
  | nil => intro invs n _; rfl
  | cons pick picks ih =>
    intro invs n hinv
    simp only [List.foldl_cons]
    have hstep : syncStepWith likeNameMatch now pick invs
        = syncStepWith subNameMatch now pick invs :=
      syncStepWith_congr _ _ _ _ _
        (fun it hit => likeNameMatch_eq_subNameMatch _ _
          (hp pick (List.mem_cons_self pick picks)) (hinv it hit))
    rw [hstep]
    apply ih (fun q hq => hp q (List.mem_cons_of_mem pick hq))
    intro it hit
    have hnames := syncStepWith_items subNameMatch now pick invs
    have hmem : it.item ∈ invs.map (·.item) := by
      rw [← hnames]
      exact List.mem_map_of_mem _ hit
    obtain ⟨it0, hit0, heq⟩ := List.mem_map.mp hmem
    rw [← heq]
    exact hinv it0 hit0

/-- Claim C3 as amended: when no price item or inventory item name contains
a SQL LIKE wildcard (`%` or `_`), `sync_prices_to_inventory` coincides
exactly — same final database and same returned update count — with the
claim's description `syncSpecModel`, which matches names by case-insensitive
substring containment in either direction, overwrites cost/supplier/location
on every matching item differing beyond the 0.001 cost tolerance, and lets
the last processed price item win. -/
theorem C3_sync_eq_spec (db : DB) (now : String)
    (hp : ∀ pi ∈ db.price_items, noWildStr pi.item)
    (hi : ∀ it ∈ db.inventory_items, noWildStr it.item) :
    sync_prices_to_inventory db now = syncSpecModel db now := by
  unfold sync_prices_to_inventory syncSpecModel syncWith
  dsimp only
  rw [syncFold_eq now _
    (fun pick hpick => by
      obtain ⟨pi, hpi, hpe⟩ := List.mem_map.mp hpick
      rw [← hpe]
      exact hp pi hpi)
    db.inventory_items 0 hi]

/-- Counterexample to claim C3 as stated: the price item named `a_c` LIKE-
matches the inventory item `abc` (`_` is a wildcard), so the code updates it
and returns 1, while the claim's substring criterion matches nothing and
demands 0. -/
theorem C3_claim_count_false :
    (sync_prices_to_inventory cxWildDB "t1").2 = 1 ∧
    (syncSpecModel cxWildDB "t1").2 = 0 := by
  with_unfolding_all decide

/-- Witness for C3: on a wildcard-free database (`Tomato` / `Roma Tomato`)
the code equals the spec model and performs one update. -/
theorem C3_sync_eq_spec_witness :
    sync_prices_to_inventory wSyncDB "t1" = syncSpecModel wSyncDB "t1" ∧
    (sync_prices_to_inventory wSyncDB "t1").2 = 1 := by
  constructor
  · exact C3_sync_eq_spec wSyncDB "t1" (by with_unfolding_all decide)
      (by with_unfolding_all decide)
  · with_unfolding_all decide

/-! ### C7: importing a row with an unknown non-blank ID -/

theorem update_price_item_not_found (db : DB) (item_id : String)
    (data : PriceData) (now : String)
    (hmiss : ∀ pi ∈ db.price_items, pi.id ≠ item_id) :
    update_price_item db item_id data now = (db, false) := by
  have hany : db.price_items.any (fun pi => decide (pi.id = item_id))
      = false :=
    List.any_eq_false.mpr (fun pi hpi => by simp [hmiss pi hpi])
  have hmap : (db.price_items.map (fun pi =>
      if pi.id = item_id then overwritePriceRow data now pi else pi))
      = db.price_items :=
    map_if_not _ _ _ (fun pi hpi => hmiss pi hpi)
  unfold update_price_item
  simp only [hany, Bool.false_eq_true, if_false, hmap]

/-- Claim C7: a CSV row whose stripped ID is non-blank and matches no
existing price item makes `import_prices` append one row-level error
message, leave the database (and the created/updated counters) exactly
unchanged, and continue with the subsequent rows. -/
theorem C7_import_unknown_id (now : String) (acc : ImportAcc) (row : CsvRow)
    (hid : strTrim row.id ≠ "")
    (hmiss : ∀ pi ∈ acc.db.price_items, pi.id ≠ strTrim row.id) :
    importRow now acc row =
      { acc with
        errors := acc.errors ++ [rowMsg acc.rowNum
          (if strTrim row.item = "" then "Item name is required"
           else "Item ID not found: " ++ strTrim row.id)],
        rowNum := acc.rowNum + 1 } ∧
    (∀ rest : List CsvRow,
      (row :: rest).foldl (importRow now) acc = rest.foldl (importRow now)
        { acc with
          errors := acc.errors ++ [rowMsg acc.rowNum
            (if strTrim row.item = "" then "Item name is required"
             else "Item ID not found: " ++ strTrim row.id)],
          rowNum := acc.rowNum + 1 }) := by
  have h1 : importRow now acc row =
      { acc with
        errors := acc.errors ++ [rowMsg acc.rowNum
          (if strTrim row.item = "" then "Item name is required"
           else "Item ID not found: " ++ strTrim row.id)],
        rowNum := acc.rowNum + 1 } := by
    unfold importRow
    dsimp only
    by_cases hname : strTrim row.item = ""
    · simp only [hname, if_pos, if_true]
    · rw [if_neg hname, if_pos hid,
        update_price_item_not_found acc.db (strTrim row.id) _ now hmiss]
      simp only [hname, Bool.false_eq_true, if_false, ite_false]
  exact ⟨h1, fun rest => by rw [List.foldl_cons, h1]⟩

/-- Witness for C7: a concrete row with unknown id `zz` against the
round-trip witness database. -/
theorem C7_import_unknown_id_witness :
    importRow "t1" { db := wRoundTripDB, updated := 0, created := 0,
                     rowNum := 2, errors := [], nextId := 0 }
      { id := "zz", locationsStr := "", supplier := "", item := "Sugar",
        purchaseUnit := "bag", unitsPerInv := 1, currentPrice := 2 } =
      { db := wRoundTripDB, updated := 0, created := 0, rowNum := 3,
        errors := [rowMsg 2 "Item ID not found: zz"], nextId := 0 } := by
  have h := (C7_import_unknown_id "t1"
    { db := wRoundTripDB, updated := 0, created := 0, rowNum := 2,
      errors := [], nextId := 0 }
    { id := "zz", locationsStr := "", supplier := "", item := "Sugar",
      purchaseUnit := "bag", unitsPerInv := 1, currentPrice := 2 }
    (by with_unfolding_all decide) (by with_unfolding_all decide)).1
  rw [h]
  with_unfolding_all decide

/-! ### C6: the prices CSV round trip — sorting lemmas -/

theorem charListLe_total : ∀ a b : List Char,
    charListLe a b = true ∨ charListLe b a = true := by
  intro a
  induction a with
  | nil => intro b; left; rfl
  | cons c cs ih =>
    intro b
    cases b with
    | nil => right; rfl
    | cons d ds =>
      by_cases h1 : c < d
      · left; simp [charListLe, h1]
      · by_cases h2 : d < c
        · right; simp [charListLe, h2]
        · have hcd : c = d := le_antisymm (not_lt.mp h2) (not_lt.mp h1)
          cases ih ds with
          | inl h => left; simp [charListLe, hcd, h]
          | inr h => right; simp [charListLe, hcd, h]

theorem strLeB_total (a b : String) :
    strLeB a b = true ∨ strLeB b a = true := charListLe_total a.data b.data

theorem chain'_insertLe {α : Type} (le : α → α → Bool)
    (htot : ∀ a b, le a b = true ∨ le b a = true) (a : α) :
    ∀ l, List.Chain' (fun x y => le x y = true) l →
      List.Chain' (fun x y => le x y = true) (insertLe le a l) := by
  intro l
  induction l with
  | nil => intro _; simp [insertLe]
  | cons b bs ih =>
    intro hl
    obtain ⟨hhead, hbs⟩ := List.chain'_cons'.mp hl
    unfold insertLe
    by_cases h : le a b = true
    · rw [if_pos h]
      exact List.chain'_cons.mpr ⟨h, hl⟩
    · rw [if_neg h]
      have hba : le b a = true := (htot a b).resolve_left h
      apply List.chain'_cons'.mpr
      refine ⟨?_, ih hbs⟩
      intro y hy
      cases bs with
      | nil =>
        simp only [insertLe, List.head?_cons, Option.mem_def,
          Option.some.injEq] at hy
        rw [← hy]
        exact hba
      | cons c cs =>
        unfold insertLe at hy
        by_cases h2 : le a c = true
        · rw [if_pos h2] at hy
          simp only [List.head?_cons, Option.mem_def, Option.some.injEq] at hy
          rw [← hy]
          exact hba
        · rw [if_neg h2] at hy
          simp only [List.head?_cons, Option.mem_def, Option.some.injEq] at hy
          rw [← hy]
          exact hhead c rfl

theorem chain'_sortLe {α : Type} (le : α → α → Bool)
    (htot : ∀ a b, le a b = true ∨ le b a = true) (l : List α) :
    List.Chain' (fun x y => le x y = true) (sortLe le l) := by
  induction l with
  | nil => simp [sortLe]
  | cons a l ih => exact chain'_insertLe le htot a _ ih

theorem sortLe_fix {α : Type} (le : α → α → Bool) :
    ∀ l, List.Chain' (fun x y => le x y = true) l → sortLe le l = l := by
  intro l
  induction l with
  | nil => intro _; rfl
  | cons a as ih =>
    intro hl
    obtain ⟨hhead, has⟩ := List.chain'_cons'.mp hl
    show insertLe le a (sortLe le as) = a :: as
    rw [ih has]
    cases as with
    | nil => rfl
    | cons b bs => simp [insertLe, hhead b rfl]

theorem sortLe_idem {α : Type} (le : α → α → Bool)
    (htot : ∀ a b, le a b = true ∨ le b a = true) (l : List α) :
    sortLe le (sortLe le l) = sortLe le l :=
  sortLe_fix le _ (chain'_sortLe le htot l)

theorem insertLe_perm {α : Type} (le : α → α → Bool) (a : α) :
    ∀ l : List α, (insertLe le a l).Perm (a :: l) := by
  intro l
  induction l with
  | nil => exact List.Perm.refl _
  | cons b bs ih =>
    unfold insertLe
    by_cases h : le a b = true
    · rw [if_pos h]
    · rw [if_neg h]
      exact (ih.cons b).trans (List.Perm.swap a b bs)

theorem sortLe_perm {α : Type} (le : α → α → Bool) :
    ∀ l : List α, (sortLe le l).Perm l := by
  intro l
  induction l with
  | nil => exact List.Perm.refl _
  | cons a as ih => exact (insertLe_perm le a _).trans (ih.cons a)

/-! ### C6: junction-table lemmas -/

theorem setLocs_fold_junction (pid : String) :
    ∀ (names : List String) (d : DB), names.Nodup →
    (∀ n ∈ names, n ≠ "") →
    (∀ n ∈ names, (pid, n) ∉ d.price_item_locations) →
    (names.foldl (setLocStep pid) d).price_item_locations
      = d.price_item_locations ++ names.map (fun n => (pid, n)) := by
  intro names
  induction names with
  | nil => intro d _ _ _; simp
  | cons n ns ih =>
    intro d hnodup hne hmiss
    simp only [List.foldl_cons]
    have hn : n ≠ "" := hne n (List.mem_cons_self n ns)
    have hnotmem : (pid, n) ∉ d.price_item_locations :=
      hmiss n (List.mem_cons_self n ns)
    have hstep : (setLocStep pid d n).price_item_locations
        = d.price_item_locations ++ [(pid, n)] := by
      unfold setLocStep
      rw [if_neg hn]
      dsimp only
      by_cases hloc : n ∈ d.locations
      · rw [if_pos hloc, if_neg hnotmem]
      · rw [if_neg hloc, if_neg hnotmem]
    rw [ih (setLocStep pid d n) (List.nodup_cons.mp hnodup).2
      (fun x hx => hne x (List.mem_cons_of_mem n hx))
      (fun x hx => by
        rw [hstep]
        intro hmem
        cases List.mem_append.mp hmem with
        | inl h => exact hmiss x (List.mem_cons_of_mem n hx) h
        | inr h =>
          have hx2 : x = n := by
            have := List.mem_singleton.mp h
            exact congrArg Prod.snd this
          exact (List.nodup_cons.mp hnodup).1 (hx2 ▸ hx)), hstep]
    simp

theorem set_locs_junction (db : DB) (pid : String) (names : List String)
    (hnodup : names.Nodup) (hne : ∀ n ∈ names, n ≠ "") :
    (set_price_item_locations db pid names).price_item_locations
      = (db.price_item_locations.filter (fun pr => decide (pr.1 ≠ pid)))
        ++ names.map (fun n => (pid, n)) := by
  unfold set_price_item_locations
  rw [setLocs_fold_junction pid names _ hnodup hne]
  intro n hn hmem
  have := List.of_mem_filter hmem
  simp at this

theorem get_locs_set_same (db : DB) (pid : String) (names : List String)
    (hnodup : names.Nodup) (hne : ∀ n ∈ names, n ≠ "") :
    get_price_item_locations (set_price_item_locations db pid names) pid
      = sortLe strLeB names := by
  unfold get_price_item_locations
  rw [set_locs_junction db pid names hnodup hne, List.filter_append]
  have h1 : (db.price_item_locations.filter
      (fun pr => decide (pr.1 ≠ pid))).filter
        (fun pr => decide (pr.1 = pid)) = [] := by
    rw [List.filter_eq_nil_iff]
    intro pr hpr
    have := List.of_mem_filter hpr
    simp at this
    simp [this]
  have h2 : ((names.map (fun n => (pid, n))).filter
      (fun pr => decide (pr.1 = pid))) = names.map (fun n => (pid, n)) := by
    rw [List.filter_eq_self]
    intro pr hpr
    obtain ⟨n, _, hn⟩ := List.mem_map.mp hpr
    rw [← hn]
    simp
  rw [h1, h2, List.nil_append, List.map_map]
  simp [Function.comp]

theorem get_locs_set_other (db : DB) (pid qid : String) (names : List String)
    (hq : qid ≠ pid) (hnodup : names.Nodup) (hne : ∀ n ∈ names, n ≠ "") :
    get_price_item_locations (set_price_item_locations db pid names) qid
      = get_price_item_locations db qid := by
  unfold get_price_item_locations
  rw [set_locs_junction db pid names hnodup hne, List.filter_append]
  have h2 : ((names.map (fun n => (pid, n))).filter
      (fun pr => decide (pr.1 = qid))) = [] := by
    rw [List.filter_eq_nil_iff]
    intro pr hpr
    obtain ⟨n, _, hn⟩ := List.mem_map.mp hpr
    rw [← hn]
    simp only [decide_eq_true_eq]
    exact fun h => hq h.symm
  have h1 : (db.price_item_locations.filter
      (fun pr => decide (pr.1 ≠ pid))).filter (fun pr => decide (pr.1 = qid))
      = db.price_item_locations.filter (fun pr => decide (pr.1 = qid)) := by
    rw [List.filter_filter]
    apply List.filter_congr
    intro pr _
    by_cases h : pr.1 = qid
    · simp [h, hq]
    · simp [h]
  rw [h1, h2, List.append_nil]

theorem get_locs_nodup (db : DB) (pid : String)
    (h : db.price_item_locations.Nodup) :
    (get_price_item_locations db pid).Nodup := by
  unfold get_price_item_locations
  apply ((sortLe_perm strLeB _).nodup_iff).mpr
  apply List.Nodup.map_on
  · intro x hx y hy hxy
    have hx1 : x.1 = pid := by
      have := List.of_mem_filter hx
      simpa using this
    have hy1 : y.1 = pid := by
      have := List.of_mem_filter hy
      simpa using this
    exact Prod.ext (hx1.trans hy1.symm) hxy
  · exact h.filter _

theorem get_locs_mem_junction (db : DB) (pid : String) (n : String)
    (h : n ∈ get_price_item_locations db pid) :
    (pid, n) ∈ db.price_item_locations := by
  unfold get_price_item_locations at h
  have h2 := (sortLe_perm strLeB _).mem_iff.mp h
  obtain ⟨pr, hpr, hn⟩ := List.mem_map.mp h2
  have hpr1 : pr.1 = pid := by
    have := List.of_mem_filter hpr
    simpa using this
  have : pr = (pid, n) := Prod.ext hpr1 hn
  exact this ▸ List.mem_of_mem_filter hpr

theorem get_locs_sorted (db : DB) (pid : String) :
    sortLe strLeB (get_price_item_locations db pid)
      = get_price_item_locations db pid := by
  unfold get_price_item_locations
  exact sortLe_idem strLeB strLeB_total _

/-! ### C6: parsing the joined locations cell is the identity -/

theorem splitCh_ne_nil (sep : Char) : ∀ l, splitCh sep l ≠ [] := by
  intro l
  induction l with
  | nil => simp [splitCh]
  | cons c cs ih =>
    unfold splitCh
    dsimp only
    split
    · simp
    · cases h : splitCh sep cs with
      | nil => exact absurd h ih
      | cons hd tl => simp [h]

theorem splitCh_no_sep (sep : Char) : ∀ l, sep ∉ l → splitCh sep l = [l] := by
  intro l
  induction l with
  | nil => intro _; rfl
  | cons c cs ih =>
    intro h
    have hc : ¬(c = sep) := fun e => h (e ▸ List.mem_cons_self c cs)
    have hcs : sep ∉ cs := fun e => h (List.mem_cons_of_mem c e)
    unfold splitCh
    dsimp only
    rw [if_neg hc, ih hcs]

theorem splitCh_cons (sep c : Char) (cs : List Char) :
    splitCh sep (c :: cs) = if c = sep then [] :: splitCh sep cs
      else match splitCh sep cs with
        | [] => [[c]]
        | h :: t => (c :: h) :: t := rfl

theorem splitCh_append_sep (sep : Char) (xs ys : List Char) (h : sep ∉ xs) :
    splitCh sep (xs ++ sep :: ys) = xs :: splitCh sep ys := by
  induction xs with
  | nil =>
    simp only [List.nil_append]
    rw [splitCh_cons, if_pos rfl]
  | cons c cs ih =>
    have hc : ¬(c = sep) := fun e => h (e ▸ List.mem_cons_self c cs)
    have hcs : sep ∉ cs := fun e => h (List.mem_cons_of_mem c e)
    simp only [List.cons_append]
    rw [splitCh_cons, if_neg hc, ih hcs]

theorem splitCh_cons_ne (sep c : Char) (l : List Char) (h : ¬(c = sep)) :
    ∃ hd tl, splitCh sep l = hd :: tl ∧
      splitCh sep (c :: l) = (c :: hd) :: tl := by
  cases hsp : splitCh sep l with
  | nil => exact absurd hsp (splitCh_ne_nil sep l)
  | cons hd tl =>
    refine ⟨hd, tl, rfl, ?_⟩
    unfold splitCh
    dsimp only
    rw [if_neg h, hsp]

theorem dropWhile_eq_self_of_head (l : List Char)
    (h : ∀ c, l.head? = some c → c.isWhitespace = false) :
    l.dropWhile Char.isWhitespace = l := by
  cases l with
  | nil => rfl
  | cons a l =>
    rw [List.dropWhile_cons, if_neg]
    rw [h a rfl]
    simp

theorem strTrim_eq_self_of_ends (s : String)
    (h1 : ∀ c, s.data.head? = some c → c.isWhitespace = false)
    (h2 : ∀ c, s.data.getLast? = some c → c.isWhitespace = false) :
    strTrim s = s := by
  unfold strTrim
  rw [dropWhile_eq_self_of_head _ h1,
      dropWhile_eq_self_of_head s.data.reverse
        (fun c hc => h2 c (by rwa [List.head?_reverse] at hc)),
      List.reverse_reverse]

theorem strTrim_cons_ws (c : Char) (l : List Char)
    (h : c.isWhitespace = true) :
    strTrim ⟨c :: l⟩ = strTrim ⟨l⟩ := by
  unfold strTrim
  rw [show (String.mk (c :: l)).data = c :: l from rfl,
      List.dropWhile_cons, if_pos h]

theorem commaToSemi_of_no_comma (s : String) (h : ',' ∉ s.data) :
    commaToSemi s = s := by
  unfold commaToSemi
  have hmap : s.data.map (fun c => if c = ',' then ';' else c)
      = s.data.map id := by
    apply List.map_congr_left
    intro c hc
    have hne : ¬(c = ',') := by
      intro e
      rw [e] at hc
      exact h hc
    rw [if_neg hne]
    rfl
  rw [hmap, List.map_id]

theorem data_ne_nil_of_ne_empty (n : String) (h : n ≠ "") : n.data ≠ [] := by
  intro hd
  apply h
  have he : n = ⟨n.data⟩ := rfl
  rw [he, hd]

theorem length_strTrim_le (s : String) :
    (strTrim s).data.length ≤ s.data.length := by
  unfold strTrim
  calc ((s.data.dropWhile Char.isWhitespace).reverse.dropWhile
          Char.isWhitespace).reverse.length
      = ((s.data.dropWhile Char.isWhitespace).reverse.dropWhile
          Char.isWhitespace).length := by rw [List.length_reverse]
    _ ≤ (s.data.dropWhile Char.isWhitespace).reverse.length :=
        (List.dropWhile_suffix _).sublist.length_le
    _ = (s.data.dropWhile Char.isWhitespace).length := by
        rw [List.length_reverse]
    _ ≤ s.data.length := (List.dropWhile_suffix _).sublist.length_le

theorem trimFixed_head (n : String) (hfix : trimFixed n) :
    ∀ c, n.data.head? = some c → c.isWhitespace = false := by
  intro c hc
  by_contra hws
  have hws' : c.isWhitespace = true := by
    cases h : c.isWhitespace
    · exact absurd h hws
    · rfl
  obtain ⟨l, hl⟩ : ∃ l, n.data = c :: l := by
    cases hd : n.data with
    | nil => rw [hd] at hc; simp at hc
    | cons a l =>
      rw [hd] at hc
      simp only [List.head?_cons, Option.some.injEq] at hc
      exact ⟨l, by rw [hc]⟩
  have hlt : (strTrim n).data.length < n.data.length := by
    unfold strTrim
    rw [hl, List.dropWhile_cons, if_pos hws']
    calc ((l.dropWhile Char.isWhitespace).reverse.dropWhile
            Char.isWhitespace).reverse.length
        ≤ (l.dropWhile Char.isWhitespace).reverse.length := by
          rw [List.length_reverse]
          exact (List.dropWhile_suffix _).sublist.length_le
      _ = (l.dropWhile Char.isWhitespace).length := by
          rw [List.length_reverse]
      _ ≤ l.length := (List.dropWhile_suffix _).sublist.length_le
      _ < (c :: l).length := by simp
  rw [hfix] at hlt
  exact absurd hlt (lt_irrefl _)

theorem trimFixed_last (n : String) (hfix : trimFixed n) :
    ∀ c, n.data.getLast? = some c → c.isWhitespace = false := by
  intro c hc
  by_contra hws
  have hws' : c.isWhitespace = true := by
    cases h : c.isWhitespace
    · exact absurd h hws
    · rfl
  have hne : n.data ≠ [] := by
    intro hd
    rw [hd] at hc
    simp at hc
  cases hX : n.data.dropWhile Char.isWhitespace with
  | nil =>
    have : (strTrim n).data = [] := by
      unfold strTrim
      rw [hX]
      rfl
    rw [hfix] at this
    exact hne this
  | cons x xs =>
    have hXlast : (n.data.dropWhile Char.isWhitespace).getLast? = some c := by
      obtain ⟨t, ht⟩ := List.dropWhile_suffix (l := n.data)
        (p := Char.isWhitespace)
      rw [← ht] at hc
      rwa [List.getLast?_append_of_ne_nil t (by rw [hX]; simp)] at hc
    have hrev : (n.data.dropWhile Char.isWhitespace).reverse.head? = some c := by
      rw [List.head?_reverse]
      exact hXlast
    obtain ⟨l', hl'⟩ : ∃ l',
        (n.data.dropWhile Char.isWhitespace).reverse = c :: l' := by
      cases hd : (n.data.dropWhile Char.isWhitespace).reverse with
      | nil => rw [hd] at hrev; simp at hrev
      | cons a l' =>
        rw [hd] at hrev
        simp only [List.head?_cons, Option.some.injEq] at hrev
        exact ⟨l', by rw [hrev]⟩
    have hlt : (strTrim n).data.length < n.data.length := by
      unfold strTrim
      rw [hl', List.dropWhile_cons, if_pos hws']
      have h1 : (l'.dropWhile Char.isWhitespace).reverse.length ≤ l'.length := by
        rw [List.length_reverse]
        exact (List.dropWhile_suffix _).sublist.length_le
      have h2 : l'.length <
          (n.data.dropWhile Char.isWhitespace).reverse.length := by
        rw [hl']
        simp
      have h3 : (n.data.dropWhile Char.isWhitespace).reverse.length
          ≤ n.data.length := by
        rw [List.length_reverse]
        exact (List.dropWhile_suffix _).sublist.length_le
      exact lt_of_le_of_lt h1 (lt_of_lt_of_le h2 h3)
    rw [hfix] at hlt
    exact absurd hlt (lt_irrefl _)

theorem joinSemiSp_ne_nil (m : String) (rs : List String) (hm : m ≠ "") :
    (joinSemiSp (m :: rs)).data ≠ [] := by
  cases rs with
  | nil => exact data_ne_nil_of_ne_empty m hm
  | cons r rs' =>
    show (m ++ "; " ++ joinSemiSp (r :: rs')).data ≠ []
    rw [String.data_append, String.data_append]
    intro h
    rw [List.append_assoc] at h
    exact data_ne_nil_of_ne_empty m hm (List.append_eq_nil.mp h).1

theorem joinSemiSp_ends (names : List String)
    (h : ∀ n ∈ names, n ≠ "" ∧ trimFixed n) :
    (∀ c, (joinSemiSp names).data.head? = some c → c.isWhitespace = false) ∧
    (∀ c, (joinSemiSp names).data.getLast? = some c →
      c.isWhitespace = false) := by
  induction names with
  | nil =>
    constructor <;> intro c hc <;> simp [joinSemiSp] at hc
  | cons n rest ih =>
    have hn := h n (List.mem_cons_self n rest)
    cases rest with
    | nil =>
      exact ⟨trimFixed_head n hn.2, trimFixed_last n hn.2⟩
    | cons m rs =>
      have hdata : (joinSemiSp (n :: m :: rs)).data
          = n.data ++ ';' :: ' ' :: (joinSemiSp (m :: rs)).data := by
        show (n ++ "; " ++ joinSemiSp (m :: rs)).data = _
        rw [String.data_append, String.data_append, List.append_assoc]
        rfl
      have ihrest := ih (fun x hx => h x (List.mem_cons_of_mem n hx))
      have hJne : (joinSemiSp (m :: rs)).data ≠ [] :=
        joinSemiSp_ne_nil m rs (by
          exact (h m (List.mem_cons_of_mem n (List.mem_cons_self m rs))).1)
      constructor
      · intro c hc
        rw [hdata] at hc
        obtain ⟨l, hl⟩ : ∃ l, n.data = c :: l := by
          have hnne := data_ne_nil_of_ne_empty n hn.1
          cases hd : n.data with
          | nil => exact absurd hd hnne
          | cons a l =>
            rw [hd, List.cons_append, List.head?_cons] at hc
            simp only [Option.some.injEq] at hc
            exact ⟨l, by rw [hc]⟩
        exact trimFixed_head n hn.2 c (by rw [hl]; rfl)
      · intro c hc
        rw [hdata,
          List.getLast?_append_of_ne_nil n.data (by simp)] at hc
        have : (';' :: ' ' :: (joinSemiSp (m :: rs)).data)
            = [';', ' '] ++ (joinSemiSp (m :: rs)).data := rfl
        rw [this, List.getLast?_append_of_ne_nil _ hJne] at hc
        exact ihrest.2 c hc

theorem joinSemiSp_no_comma (names : List String)
    (h : ∀ n ∈ names, ',' ∉ n.data) : ',' ∉ (joinSemiSp names).data := by
  induction names with
  | nil => simp [joinSemiSp]
  | cons n rest ih =>
    cases rest with
    | nil => exact h n (List.mem_cons_self n [])
    | cons m rs =>
      show ',' ∉ (n ++ "; " ++ joinSemiSp (m :: rs)).data
      rw [String.data_append, String.data_append]
      intro hmem
      rcases List.mem_append.mp hmem with h1 | h2
      · rcases List.mem_append.mp h1 with h3 | h4
        · exact h n (List.mem_cons_self n _) h3
        · simp at h4
      · exact ih (fun x hx => h x (List.mem_cons_of_mem n hx)) h2

/-- Splitting the semicolon-joined names on `;` and stripping each piece
recovers the names (the whole-string strip having been shown a no-op). -/
theorem splitCh_join_trim (names : List String)
    (h : ∀ n ∈ names, n ≠ "" ∧ trimFixed n ∧ ';' ∉ n.data) :
    ((splitCh ';' (joinSemiSp names).data).map
      (fun l => strTrim ⟨l⟩)).filter (fun x => decide (x ≠ "")) = names := by
  induction names with
  | nil => with_unfolding_all decide
  | cons n rest ih =>
    obtain ⟨hne, hfix, hnosemi⟩ := h n (List.mem_cons_self n rest)
    cases rest with
    | nil =>
      show ((splitCh ';' n.data).map (fun l => strTrim ⟨l⟩)).filter
        (fun x => decide (x ≠ "")) = [n]
      rw [splitCh_no_sep ';' n.data hnosemi]
      simp only [List.map_cons, List.map_nil]
      rw [show (⟨n.data⟩ : String) = n from rfl, hfix]
      simp [List.filter_cons, hne]
    | cons m rs =>
      have hdata : (joinSemiSp (n :: m :: rs)).data
          = n.data ++ ';' :: ' ' :: (joinSemiSp (m :: rs)).data := by
        show (n ++ "; " ++ joinSemiSp (m :: rs)).data = _
        rw [String.data_append, String.data_append, List.append_assoc]
        rfl
      rw [hdata, splitCh_append_sep ';' n.data _ hnosemi]
      obtain ⟨hd, tl, hsp, hsp2⟩ := splitCh_cons_ne ';' ' '
        (joinSemiSp (m :: rs)).data (by intro h; simp at h)
      rw [hsp2]
      simp only [List.map_cons]
      rw [show (⟨n.data⟩ : String) = n from rfl, hfix]
      have htrimsp : strTrim ⟨' ' :: hd⟩ = strTrim ⟨hd⟩ :=
        strTrim_cons_ws ' ' hd (by rfl)
      rw [htrimsp]
      have ihrest := ih (fun x hx => h x (List.mem_cons_of_mem n hx))
      rw [hsp] at ihrest
      simp only [List.map_cons] at ihrest
      rw [List.filter_cons, if_pos (by simpa using hne)]
      rw [List.filter_cons] at ihrest ⊢
      exact congrArg (n :: ·) ihrest

/-- The full round trip on the locations cell: parsing the exported
semicolon-joined location names gives back exactly the names. -/
theorem parse_join (names : List String)
    (h : ∀ n ∈ names, n ≠ "" ∧ trimFixed n ∧ ',' ∉ n.data ∧ ';' ∉ n.data) :
    parseLocations (joinSemiSp names) = names := by
  unfold parseLocations
  have htrim : strTrim (joinSemiSp names) = joinSemiSp names := by
    have hends := joinSemiSp_ends names (fun n hn => ⟨(h n hn).1, (h n hn).2.1⟩)
    exact strTrim_eq_self_of_ends _ hends.1 hends.2
  have hcomma : commaToSemi (joinSemiSp names) = joinSemiSp names :=
    commaToSemi_of_no_comma _
      (joinSemiSp_no_comma names (fun n hn => (h n hn).2.2.1))
  rw [htrim, hcomma]
  unfold splitSemi
  rw [List.map_map]
  exact splitCh_join_trim names
    (fun n hn => ⟨(h n hn).1, (h n hn).2.1, (h n hn).2.2.2⟩)

/-! ### C6: the round-trip theorem -/

theorem obsPrices_ids (dbk db : DB) (h : obsPrices dbk = obsPrices db) :
    dbk.price_items.map (fun p => p.id)
      = db.price_items.map (fun p => p.id) := by
  have h2 := congrArg (List.map ObsPrice.id) h
  unfold obsPrices at h2
  rw [List.map_map, List.map_map] at h2
  exact h2

theorem update_price_item_found (db : DB) (id : String) (data : PriceData)
    (now : String)
    (h : db.price_items.any (fun p => decide (p.id = id)) = true) :
    update_price_item db id data now =
      (set_price_item_locations
        { db with price_items := db.price_items.map (fun p =>
            if p.id = id then overwritePriceRow data now p else p) }
        id (resolvedLocations data), true) := by
  unfold update_price_item
  dsimp only
  rw [if_pos h]

theorem resolvedLocations_rowData (row : CsvRow) :
    resolvedLocations (rowData row) = parseLocations row.locationsStr := by
  unfold resolvedLocations
  by_cases hcase : (rowData row).locations = []
  · rw [if_neg (fun hcon => hcon hcase)]
    rw [if_neg (fun hcon => hcon (show (rowData row).location = "" from rfl))]
    rw [← hcase]
    rfl
  · rw [if_pos hcase]
    rfl

theorem roundtrip_step (db : DB) (H : RoundTripHyps db) (pi : PriceItem)
    (hpi : pi ∈ db.price_items) (harch : pi.archived = false)
    (dbk : DB) (hobs : obsPrices dbk = obsPrices db) (now : String) :
    (update_price_item dbk pi.id (rowData (rowOf db pi)) now).2 = true ∧
    obsPrices (update_price_item dbk pi.id (rowData (rowOf db pi)) now).1
      = obsPrices db := by
  obtain ⟨Hnodup, Hitem, Hjnodup, Hjnames⟩ := H
  obtain ⟨hidfix, hidne, hitemfix, hitemne, hsupfix, hpufix, hunits,
    hprice2, hpuc⟩ := Hitem pi hpi harch
  have hnamesprops : ∀ n ∈ get_price_item_locations db pi.id,
      n ≠ "" ∧ trimFixed n ∧ ',' ∉ n.data ∧ ';' ∉ n.data :=
    fun n hn => Hjnames (pi.id, n) (get_locs_mem_junction db pi.id n hn)
  have hnodupn : (get_price_item_locations db pi.id).Nodup :=
    get_locs_nodup db pi.id Hjnodup
  have hnamesne : ∀ n ∈ get_price_item_locations db pi.id, n ≠ "" :=
    fun n hn => (hnamesprops n hn).1
  have hresolve : resolvedLocations (rowData (rowOf db pi))
      = get_price_item_locations db pi.id := by
    rw [resolvedLocations_rowData]
    exact parse_join _ hnamesprops
  have hids := obsPrices_ids dbk db hobs
  have hfound : dbk.price_items.any (fun p => decide (p.id = pi.id))
      = true := by
    have hmem : pi.id ∈ dbk.price_items.map (fun p => p.id) := by
      rw [hids]
      exact List.mem_map_of_mem _ hpi
    obtain ⟨q, hq, hqid⟩ := List.mem_map.mp hmem
    exact List.any_eq_true.mpr ⟨q, hq, by simp [hqid]⟩
  have hupd := update_price_item_found dbk pi.id (rowData (rowOf db pi))
    now hfound
  refine ⟨by rw [hupd], ?_⟩
  rw [hupd]
  dsimp only
  rw [hresolve]
  have hsetitems := set_locs_price_items
    { dbk with price_items := dbk.price_items.map (fun p =>
        if p.id = pi.id then overwritePriceRow (rowData (rowOf db pi)) now p
        else p) }
    pi.id (get_price_item_locations db pi.id)
  have hlendbk : dbk.price_items.length = db.price_items.length := by
    have h2 := congrArg List.length hids
    simpa using h2
  have hobs_i : ∀ (i : ℕ) (h1 : i < dbk.price_items.length)
      (h2 : i < db.price_items.length),
      obsItem dbk (dbk.price_items[i]) = obsItem db (db.price_items[i]) := by
    intro i h1 h2
    have h3 : (obsPrices dbk)[i]? = (obsPrices db)[i]? := by rw [hobs]
    unfold obsPrices at h3
    rw [List.getElem?_map, List.getElem?_map,
        List.getElem?_eq_getElem h1, List.getElem?_eq_getElem h2] at h3
    simpa using h3
  have hids_i : ∀ (i : ℕ) (h1 : i < dbk.price_items.length)
      (h2 : i < db.price_items.length),
      (dbk.price_items[i]).id = (db.price_items[i]).id := by
    intro i h1 h2
    have h3 : (dbk.price_items.map (fun p => p.id))[i]?
        = (db.price_items.map (fun p => p.id))[i]? := by rw [hids]
    rw [List.getElem?_map, List.getElem?_map,
        List.getElem?_eq_getElem h1, List.getElem?_eq_getElem h2] at h3
    simpa using h3
  apply List.ext_getElem
  · unfold obsPrices
    rw [hsetitems]
    simp [hlendbk]
  intro i h1 h2
  have h1k : i < dbk.price_items.length := by
    unfold obsPrices at h1
    rw [hsetitems] at h1
    simpa using h1
  have h2d : i < db.price_items.length := by
    unfold obsPrices at h2
    simpa using h2
  unfold obsPrices
  rw [List.getElem_map, List.getElem_map]
  have hsetlen : i < (set_price_item_locations
      { dbk with price_items := dbk.price_items.map (fun p =>
          if p.id = pi.id then overwritePriceRow (rowData (rowOf db pi)) now p
          else p) }
      pi.id (get_price_item_locations db pi.id)).price_items.length := by
    rw [hsetitems]
    simpa using h1k
  have hset_pi_i : (set_price_item_locations
      { dbk with price_items := dbk.price_items.map (fun p =>
          if p.id = pi.id then overwritePriceRow (rowData (rowOf db pi)) now p
          else p) }
      pi.id (get_price_item_locations db pi.id)).price_items[i]
      = (if (dbk.price_items[i]).id = pi.id then
          overwritePriceRow (rowData (rowOf db pi)) now
            (dbk.price_items[i])
         else dbk.price_items[i]) := by
    have hgeq := List.getElem_of_eq hsetitems hsetlen
    rw [hgeq, List.getElem_map]
  rw [hset_pi_i]
  have hobs_eq := hobs_i i h1k h2d
  by_cases hp : (dbk.price_items[i]).id = pi.id
  · rw [if_pos hp]
    have hdbi_pi : db.price_items[i] = pi := by
      apply List.inj_on_of_nodup_map Hnodup (List.getElem_mem h2d) hpi
      show (db.price_items[i]).id = pi.id
      rw [← hids_i i h1k h2d]
      exact hp
    rw [hdbi_pi]
    have hlocs_set : get_price_item_locations
        (set_price_item_locations
          { dbk with price_items := dbk.price_items.map (fun p =>
              if p.id = pi.id then
                overwritePriceRow (rowData (rowOf db pi)) now p
              else p) }
          pi.id (get_price_item_locations db pi.id)) pi.id
        = get_price_item_locations db pi.id := by
      rw [get_locs_set_same _ pi.id _ hnodupn hnamesne]
      exact get_locs_sorted db pi.id
    unfold obsItem overwritePriceRow
    simp only [ObsPrice.mk.injEq]
    refine ⟨hp, ?_, ?_, ?_, ?_, ?_, ?_, ?_⟩
    · rw [show ({ (dbk.price_items[i]) with
          location := _, supplier := _, item := _, purchase_unit := _,
          units_per_inv := _, current_price := _, per_unit_cost := _,
          updated_at := _ } : PriceItem).id = (dbk.price_items[i]).id
          from rfl]
      rw [hp]
      exact hlocs_set
    · show strTrim (rowOf db pi).supplier = pi.supplier
      exact hsupfix
    · show strTrim (rowOf db pi).item = pi.item
      exact hitemfix
    · show strTrim (rowOf db pi).purchaseUnit = pi.purchase_unit
      exact hpufix
    · show unitsOr1 (rowOf db pi).unitsPerInv = pi.units_per_inv
      rw [show (rowOf db pi).unitsPerInv = pi.units_per_inv from rfl]
      unfold unitsOr1
      rw [if_neg hunits]
    · show (rowOf db pi).currentPrice = pi.current_price
      exact hprice2
    · show round2 ((rowOf db pi).currentPrice
          / unitsOr1 (rowOf db pi).unitsPerInv) = pi.per_unit_cost
      have hu : unitsOr1 (rowOf db pi).unitsPerInv = pi.units_per_inv := by
        rw [show (rowOf db pi).unitsPerInv = pi.units_per_inv from rfl]
        unfold unitsOr1
        rw [if_neg hunits]
      rw [hu, show (rowOf db pi).currentPrice = round2 pi.current_price
            from rfl, hprice2]
      exact hpuc.symm
  · rw [if_neg hp]
    rw [← hobs_eq]
    unfold obsItem
    simp only [ObsPrice.mk.injEq, and_true, true_and]
    rw [get_locs_set_other _ pi.id (dbk.price_items[i]).id _ hp hnodupn
      hnamesne]
    rfl

theorem roundtrip_fold (db : DB) (H : RoundTripHyps db) (now : String) :
    ∀ (rows : List CsvRow),
    (∀ r ∈ rows, ∃ pi, pi ∈ db.price_items ∧ pi.archived = false ∧
      r = rowOf db pi) →
    ∀ (acc : ImportAcc), obsPrices acc.db = obsPrices db →
    (obsPrices ((rows.foldl (importRow now) acc).db) = obsPrices db ∧
     (rows.foldl (importRow now) acc).errors = acc.errors ∧
     (rows.foldl (importRow now) acc).created = acc.created) := by
  intro rows
  induction rows with
  | nil => intro _ acc hacc; exact ⟨hacc, rfl, rfl⟩
  | cons r rs ih =>
    intro hrows acc hacc
    obtain ⟨pi, hpi, harch, hr⟩ := hrows r (List.mem_cons_self r rs)
    obtain ⟨hidfix, hidne, hitemfix, hitemne, _, _, _, _, _⟩ :=
      H.2.1 pi hpi harch
    have hstep := roundtrip_step db H pi hpi harch acc.db hacc now
    have himp : importRow now acc r =
        { acc with
          db := (update_price_item acc.db pi.id (rowData r) now).1,
          updated := acc.updated + 1, rowNum := acc.rowNum + 1 } := by
      subst hr
      unfold importRow
      dsimp only
      rw [show strTrim (rowOf db pi).item = pi.item from hitemfix,
          show strTrim (rowOf db pi).id = pi.id from hidfix]
      rw [if_neg hitemne, if_pos hidne, if_pos hstep.1]
    rw [List.foldl_cons, himp]
    have hnewobs : obsPrices ({ acc with
        db := (update_price_item acc.db pi.id (rowData r) now).1,
        updated := acc.updated + 1, rowNum := acc.rowNum + 1 } : ImportAcc).db
        = obsPrices db := by
      subst hr
      exact hstep.2
    obtain ⟨ho, he, hc⟩ := ih
      (fun x hx => hrows x (List.mem_cons_of_mem r hx)) _ hnewobs
    exact ⟨ho, he, hc⟩

theorem export_rows_from (db : DB) :
    ∀ r ∈ export_prices db, ∃ pi, pi ∈ db.price_items ∧
      pi.archived = false ∧ r = rowOf db pi := by
  intro r hr
  unfold export_prices at hr
  obtain ⟨pi, hpi, hre⟩ := List.mem_map.mp hr
  have hpi2 : pi ∈ db.price_items.filter (fun pi => !pi.archived) :=
    (sortLe_perm _ _).mem_iff.mp hpi
  refine ⟨pi, List.mem_of_mem_filter hpi2, ?_, hre.symm⟩
  have := List.of_mem_filter hpi2
  simpa using this

/-- Claim C6 as amended: for a database whose price items have unique
non-blank strip-invariant ids, non-empty strip-invariant names,
strip-invariant supplier and purchase unit, non-zero conversion factors,
two-decimal current prices, consistent per-unit costs, and well-formed
location names (non-empty, strip-invariant, comma/semicolon-free), exporting
the prices CSV and importing it back leaves every price item's locations,
supplier, item name, purchase unit, units-per-inventory-unit, current price
and per-unit cost unchanged, with zero created items and zero row errors. -/
theorem C6_roundtrip (db : DB) (now : String) (k : ℕ)
    (H : RoundTripHyps db) :
    obsPrices (import_prices db (export_prices db) now k).db
      = obsPrices db ∧
    (import_prices db (export_prices db) now k).errors = [] ∧
    (import_prices db (export_prices db) now k).created = 0 := by
  unfold import_prices
  exact roundtrip_fold db H now (export_prices db) (export_rows_from db)
    _ rfl

/-- Counterexample to claim C6 as stated: a price item with the three-decimal
current price 0.011 exports as `0.01` and re-imports changed — the round trip
reports no errors and creates nothing, but the current price is not its own
existing value. -/
theorem C6_roundtrip_claim_false :
    (import_prices cxRoundTripDB (export_prices cxRoundTripDB) "t1" 0).errors
      = [] ∧
    (import_prices cxRoundTripDB (export_prices cxRoundTripDB) "t1" 0).created
      = 0 ∧
    cxRoundTripDB.price_items.map (·.current_price) = [11/1000] ∧
    (import_prices cxRoundTripDB (export_prices cxRoundTripDB) "t1"
      0).db.price_items.map (·.current_price) = [1/100] ∧
    (11/1000 : ℚ) ≠ 1/100 := by
  set_option maxRecDepth 4000 in with_unfolding_all decide

/-- Witness for C6: the concrete well-formed database satisfies the
hypotheses and its round trip is lossless. -/
theorem C6_roundtrip_witness :
    RoundTripHyps wRoundTripDB ∧
    (obsPrices (import_prices wRoundTripDB (export_prices wRoundTripDB)
        "t1" 5).db = obsPrices wRoundTripDB ∧
     (import_prices wRoundTripDB (export_prices wRoundTripDB) "t1" 5).errors
       = [] ∧
     (import_prices wRoundTripDB (export_prices wRoundTripDB) "t1" 5).created
       = 0) :=
  ⟨by with_unfolding_all decide,
   C6_roundtrip wRoundTripDB "t1" 5 (by with_unfolding_all decide)⟩

/-- Witness for C10 at a concrete database without the targeted id. -/
theorem C10_update_missing_inserts_count_witness :
    (update_inventory_item wInvDB "ghost" wInvData1 (some "2024-02")
      (some "Inman") "t1").2 = none ∧
    (update_inventory_item wInvDB "ghost" wInvData1 (some "2024-02")
      (some "Inman") "t1").1.inventory_items = wInvDB.inventory_items ∧
    (update_inventory_item wInvDB "ghost" wInvData1 (some "2024-02")
      (some "Inman") "t1").1.inventory_counts =
      wInvDB.inventory_counts ++ [newCount "ghost" "Inman" "2024-02" wInvData1 "t1"] :=
  C10_update_missing_inserts_count wInvDB "ghost" wInvData1 "2024-02"
    (some "Inman") "t1" (by with_unfolding_all decide)
    (by with_unfolding_all decide) (by with_unfolding_all decide)

end InventoryApp
